import Mathlib

/-!
Verification of the multi-value alignment and explosion engine of
`preprocessing/data_explosion.py` (LeADS D7.4 public preprocessing package).

Shallow embedding conventions:
* Python strings are `List Char` (`Str`); code-point order gives Python's
  string comparison.
* A pandas cell is a `Val`: `missing` (NaN), a string, a natural number
  (the only numerics the claims touch; `cellStr` is `str(x)`), or a tuple of
  optional tokens (tuples only ever arise in the output of the single-column
  branch of `explode_aligned_columns`, mirroring the source).
* A DataFrame is a `Table`: ordered column names plus row-major cell lists.
* `raise` is modeled by `Except`: `AlignmentError` stands for the
  `ValueError` raised on unequal per-row token lengths (it carries the row
  index and the set of distinct lengths, exactly the data interpolated into
  the Python message), `ExplodeErr.colNotFound` for the pandas `KeyError`
  raised when a selected column is absent.
* `DataFrame.explode` is modeled by its documented semantics: each list
  element becomes its own row in order, an empty list yields a single row
  whose exploded cell is NaN; `df[name] = values` (`assignCol`) overwrites a
  column of that name in place and otherwise appends a new last column.
* The multi-column unpack `pd.DataFrame(tolist, columns=...)` is partial:
  with a leading NaN entry and `len(columns) ≠ 1` pandas' flat constructor
  path raises a shape-mismatch `ValueError`, modeled as
  `ExplodeErr.frameShape`; NaN entries after a leading tuple go through the
  nested path and become all-missing rows.
-/

namespace DataExplosion

/-- Python strings, as lists of characters. -/
abbrev Str := List Char

/-- A pandas cell value, restricted to the shapes the engine touches. -/
inductive Val where
  | missing
  | str (s : Str)
  | num (n : Nat)
  | tup (ts : List (Option Str))
  deriving Repr, DecidableEq

/-- A DataFrame: ordered column names and row-major cells. -/
structure Table where
  cols : List Str
  rows : List (List Val)
  deriving Repr, DecidableEq

/-- `str(x)` for a non-missing cell, `none` for NaN: the combination of
`pd.isna(x)` and `str(x)` used throughout the source.  Tuple-valued cells are
outside the data model's Cell domain (they never occur in an input table);
they are mapped to `none` but no claim depends on that case. -/
def cellStr : Val → Option Str
  | .missing => none
  | .str s => some s
  | .num n => some (Nat.toDigits 10 n)
  | .tup _ => none

/-- Python `str.strip()`: drop whitespace from both ends. -/
def stripStr (s : Str) : Str :=
  ((s.dropWhile Char.isWhitespace).reverse.dropWhile Char.isWhitespace).reverse

/-- `_split_to_list(x, sep)`: `[]` on missing, otherwise split `str(x)` on the
separator character, strip each piece and drop pieces that are empty after
stripping (`[p.strip() for p in parts if p is not None and p.strip() != ""]`). -/
def _split_to_list (x : Option Str) (sep : Char) : List Str :=
  match x with
  | none => []
  | some s => ((s.splitOn sep).filter (fun p => !(stripStr p).isEmpty)).map stripStr

/-- `_align_lists(row_lists)`: right-pad every list with `None` to the maximum
length in the row. -/
def _align_lists (row_lists : List (List Str)) : List (List (Option Str)) :=
  let max_len := (row_lists.map List.length).foldr Nat.max 0
  row_lists.map (fun L => L.map some ++ List.replicate (max_len - L.length) none)

/-- `list(zip(*aligned))`: transpose to the shortest length, one tuple per
position, preserving column order inside each tuple. -/
def zipStar (ls : List (List (Option Str))) : List (List (Option Str)) :=
  match ls with
  | [] => []
  | L0 :: rest =>
    let m := rest.foldl (fun acc L => Nat.min acc L.length) L0.length
    (List.range m).map (fun i => (L0 :: rest).map (fun L => L.getD i none))

/-- The tuple filter `any(v is not None and str(v).strip() != "" for v in t)`. -/
def keepTuple (t : List (Option Str)) : Bool :=
  t.any (fun v => match v with | none => false | some s => !(stripStr s).isEmpty)

/-- The data raised on a strict-mode length mismatch: the offending row index
and the set of distinct token-sequence lengths (`Row {idx} has unequal token
lengths in {columns}: {lengths}`). -/
structure AlignmentError where
  row : Nat
  lengths : List Nat
  deriving Repr, DecidableEq

/-- `_combine_row(idx)` given the per-column token lists of one row. -/
def _combine_row (strict : Bool) (idx : Nat) (lists : List (List Str)) :
    Except AlignmentError (List (List (Option Str))) :=
  if strict then
    let lengths := (lists.map List.length).dedup
    if lengths.length > 1 then .error ⟨idx, lengths⟩
    else .ok ((zipStar (lists.map (·.map some))).filter keepTuple)
  else .ok ((zipStar (_align_lists lists)).filter keepTuple)

/-- `[_combine_row(i) for i in range(len(out))]`: the comprehension stops at
the first raised error (fail-fast, no partial result). -/
def combineRows (strict : Bool) :
    Nat → List (List (List Str)) → Except AlignmentError (List (List (List (Option Str))))
  | _, [] => .ok []
  | idx, ls :: rest =>
    match _combine_row strict idx ls with
    | .error e => .error e
    | .ok ts =>
      match combineRows strict (idx + 1) rest with
      | .error e => .error e
      | .ok tss => .ok (ts :: tss)

/-- Position of a named column (`df[c]` indexing). -/
def colIdx (t : Table) (c : Str) : Nat := t.cols.findIdx (· == c)

/-- Fetch a cell of a row by column position. -/
def getCell (row : List Val) (j : Nat) : Val := row.getD j .missing

/-- The per-row token lists of the selected columns, in selection order
(`split_cols[c].iat[idx] for c in columns`). -/
def rowLists (t : Table) (columns : List Str) (sep : Char) (row : List Val) :
    List (List Str) :=
  columns.map (fun c => _split_to_list (cellStr (getCell row (colIdx t c))) sep)

/-- The aligned-tuple sequence of one row in padding mode (the value
`_combine_row` returns when `strict_equal_lengths` is false). -/
def rowTuples (t : Table) (columns : List Str) (sep : Char) (row : List Val) :
    List (List (Option Str)) :=
  (zipStar (_align_lists (rowLists t columns sep row))).filter keepTuple

/-- Sequentially assign values to the selected columns of one row by name
(`out[c] = ...` for each selected column). -/
def setCols (tcols : List Str) (columns : List Str) (vals : List Val)
    (row : List Val) : List Val :=
  (columns.zip vals).foldl (fun r cv => r.set (tcols.findIdx (· == cv.1)) cv.2) row

/-- A tuple entry written back into a column: `None` placeholders become
missing cells. -/
def tupleVal : Option Str → Val
  | none => .missing
  | some tok => .str tok

/-- Write one exploded `_combined` value back into the selected columns,
assuming the unpack step is reached without error.  With a single selected
column the source assigns the raw `_combined` value itself
(`out[col] = out["_combined"]`), i.e. the 1-tuple, not its entry; otherwise
it unpacks tuple positions via `pd.DataFrame(..., columns=columns)`.  In the
multi-column case a NaN `_combined` entry at a non-leading position goes
through pandas' tuple constructor (`to_object_array_tuples` treats a null
row as `(nan,)`, leaving the remaining cells `None`) and so makes every
selected column missing; a NaN in the LEADING position instead aborts the
whole construction (`ExplodeErr.frameShape`, checked in
`explode_aligned_columns`), so that case never reaches this function. -/
def unpackRow (tcols : List Str) (columns : List Str) (r : List Val)
    (comb : Option (List (Option Str))) : List Val :=
  if columns.length == 1 then
    setCols tcols columns [match comb with | none => Val.missing | some t => Val.tup t] r
  else
    setCols tcols columns
      ((List.range columns.length).map (fun j =>
        match comb with
        | none => Val.missing
        | some t => tupleVal (t.getD j none))) r

/-- What the general (multi-column) unpacking path would assign, applied to
any number of selected columns: the specification's reading of the
single-column case as tuples of length 1. -/
def unpackRowGeneralPath (tcols : List Str) (columns : List Str) (r : List Val)
    (comb : Option (List (Option Str))) : List Val :=
  setCols tcols columns
    ((List.range columns.length).map (fun j =>
      match comb with
      | none => Val.missing
      | some t => tupleVal (t.getD j none))) r

/-- Errors of `explode_aligned_columns`: a missing selected column (pandas
`KeyError`, the spec's `ColumnNotFoundError`), a strict-mode alignment
failure, or the `ValueError` pandas raises while unpacking
(`pd.DataFrame(out["_combined"].tolist(), columns=list(columns), ...)`):
when the first list entry is NaN — a scalar, not list-like — pandas takes
its flat constructor path, shapes the data as a single column and fails the
shape check against `len(columns) ≠ 1` named columns. -/
inductive ExplodeErr where
  | colNotFound (c : Str)
  | alignment (e : AlignmentError)
  | frameShape
  deriving Repr, DecidableEq

deriving instance DecidableEq for Except

/-- `explode_aligned_columns(df, columns, sep, keep_empty_rows,
strict_equal_lengths)`.  The multi-column unpack
`pd.DataFrame(out["_combined"].tolist(), columns=list(columns), ...)` is not
total: pandas chooses between its nested (list-of-tuples) and flat
constructor paths by the first entry of the data alone, so a leading NaN in
a non-empty `_combined` list makes the data a single flat column and the
shape check against `len(columns) ≠ 1` raises `ValueError`
(`ExplodeErr.frameShape`).  A NaN at a later position goes through the
nested tuple path and yields an all-missing row, and with exactly one
selected column the DataFrame is never constructed. -/
def explode_aligned_columns (df : Table) (columns : List Str) (sep : Char)
    (keep_empty_rows : Bool) (strict_equal_lengths : Bool) :
    Except ExplodeErr Table :=
  match columns.find? (fun c => !(df.cols.contains c)) with
  | some c => .error (.colNotFound c)
  | none =>
    match combineRows strict_equal_lengths 0 (df.rows.map (rowLists df columns sep)) with
    | .error e => .error (.alignment e)
    | .ok combined =>
      let exploded : List (List Val × Option (List (Option Str))) :=
        (df.rows.zip combined).flatMap (fun rts =>
          if rts.2.isEmpty then [(rts.1, none)]
          else rts.2.map (fun t => (rts.1, some t)))
      let filtered := if keep_empty_rows then exploded
                      else exploded.filter (fun rc => rc.2.isSome)
      if columns.length != 1 &&
          (match filtered.head? with
           | some rc0 => rc0.2.isNone
           | none => false) then
        .error .frameShape
      else
        .ok ⟨df.cols, filtered.map (fun rc => unpackRow df.cols columns rc.1 rc.2)⟩

/-- The rows that one original row contributes to the exploded output in
padding mode (explode-then-`notna`-filter, collapsed row by row). -/
def emitRow (df : Table) (columns : List Str) (sep : Char)
    (keep_empty_rows : Bool) (r : List Val) : List (List Val) :=
  let ts := rowTuples df columns sep r
  if ts.isEmpty then
    (if keep_empty_rows then [unpackRow df.cols columns r none] else [])
  else ts.map (fun t => unpackRow df.cols columns r (some t))

/-- The exploded row/`_combined` pairs of the padding-mode pipeline, row by
row: an empty tuple sequence contributes one NaN pair, a non-empty one a
pair per tuple. -/
def explodedPairs (df : Table) (columns : List Str) (sep : Char) :
    List (List Val × Option (List (Option Str))) :=
  df.rows.flatMap (fun r =>
    if (rowTuples df columns sep r).isEmpty then [(r, none)]
    else (rowTuples df columns sep r).map (fun t => (r, some t)))

/-- The pairs surviving the `notna` filter (all of them when
`keep_empty_rows` is set). -/
def filteredPairs (df : Table) (columns : List Str) (sep : Char)
    (keep_empty_rows : Bool) : List (List Val × Option (List (Option Str))) :=
  if keep_empty_rows then explodedPairs df columns sep
  else (explodedPairs df columns sep).filter (fun rc => rc.2.isSome)

/-- Whether the padding-mode call hits the pandas `ValueError` while
unpacking: more than (or fewer than) one selected column and a NaN leading
`_combined` entry. -/
def frameCheckFails (df : Table) (columns : List Str) (sep : Char)
    (keep_empty_rows : Bool) : Bool :=
  columns.length != 1 &&
    (match (filteredPairs df columns sep keep_empty_rows).head? with
     | some rc0 => rc0.2.isNone
     | none => false)

/-- The non-missing values of a column, in string form
(`df[c].dropna().astype(str)`). -/
def colStrs (df : Table) (c : Str) : List Str :=
  (df.rows.map (fun r => getCell r (colIdx df c))).filterMap cellStr

/-- The share of non-missing values containing the separator
(`s.str.contains(sep, regex=False).mean() if len(s) else 0.0`). -/
def shareOf (df : Table) (c : Str) (sep : Char) : Rat :=
  let s := colStrs df c
  if s.length = 0 then 0
  else ((s.filter (fun v => v.contains sep)).length : Rat) / (s.length : Rat)

/-- `detect_multivalue_columns(df, candidate_columns, sep, min_share)` with an
explicit candidate list. -/
def detect_multivalue_columns (df : Table) (candidate_columns : List Str)
    (sep : Char) (min_share : Rat) : List Str :=
  candidate_columns.filter (fun c => min_share ≤ shareOf df c sep)

/-- Python string `<` on code points. -/
def strLt : Str → Str → Bool
  | [], [] => false
  | [], _ :: _ => true
  | _ :: _, [] => false
  | a :: as, b :: bs =>
    if a.toNat < b.toNat then true
    else if b.toNat < a.toNat then false
    else strLt as bs

/-- Insert into an ascending list, before the first strictly larger entry. -/
def insertSorted (x : Str) : List Str → List Str
  | [] => [x]
  | y :: ys => if strLt x y then x :: y :: ys else y :: insertSorted x ys

/-- `sorted(keep)`: ascending code-point order (an insertion sort; on the
duplicate-free token sets it is applied to, any correct ascending sort
produces the same list). -/
def sortTokens (ts : List Str) : List Str := ts.foldr insertSorted []

/-- The per-row token lists of one target column
(`out[col].apply(lambda x: _split_to_list(x, sep))`). -/
def colTokens (df : Table) (col : Str) (sep : Char) : List (List Str) :=
  df.rows.map (fun r => _split_to_list (cellStr (getCell r (colIdx df col))) sep)

/-- `sorted({t for t, c in counts.items() if c >= min_count})`: the retained
tokens, each occurrence inside a cell counted separately, in sorted order. -/
def indicatorTokens (tokens : List (List Str)) (min_count : Nat) : List Str :=
  sortTokens (tokens.flatten.dedup.filter (fun t => min_count ≤ tokens.flatten.count t))

/-- `prefix_map.get(col, col)`. -/
def lookupPref (prefMap : List (Str × Str)) (col : Str) : Str :=
  match prefMap.find? (fun p => p.1 == col) with
  | some p => p.2
  | none => col

/-- `.replace(" ", "_")` on a derived column name. -/
def replaceSpaces (s : Str) : Str := s.map (fun c => if c = ' ' then '_' else c)

/-- `f"{pref}__{t}".replace(" ", "_")`. -/
def indicatorName (prefMap : List (Str × Str)) (col t : Str) : Str :=
  replaceSpaces (lookupPref prefMap col ++ '_' :: '_' :: t)

/-- `out[name] = vals`: overwrite an existing column of that name in place,
otherwise append a new last column. -/
def assignCol (t : Table) (name : Str) (vals : List Val) : Table :=
  if t.cols.contains name then
    ⟨t.cols, (t.rows.zip vals).map (fun rv => rv.1.set (t.cols.findIdx (· == name)) rv.2)⟩
  else
    ⟨t.cols ++ [name], (t.rows.zip vals).map (fun rv => rv.1 ++ [rv.2])⟩

/-- One iteration of the outer loop of `one_hot_multivalue_columns`. -/
def oneHotCol (out : Table) (col : Str) (sep : Char) (min_count : Nat)
    (prefMap : List (Str × Str)) : Table :=
  let tokens := colTokens out col sep
  (indicatorTokens tokens min_count).foldl
    (fun out2 t =>
      assignCol out2 (indicatorName prefMap col t)
        (tokens.map (fun L => Val.num (if t ∈ L then 1 else 0))))
    out

/-- `one_hot_multivalue_columns(df, columns, sep, min_count, prefix_map)`. -/
def one_hot_multivalue_columns (df : Table) (columns : List Str) (sep : Char)
    (min_count : Nat) (prefMap : List (Str × Str)) : Table :=
  columns.foldl (fun out col => oneHotCol out col sep min_count prefMap) df

/-- The set of distinct token-sequence lengths of one row over the selected
columns (`{len(L) for L in lists}`), as a deduplicated list. -/
def rowDistinctLengths (t : Table) (columns : List Str) (sep : Char)
    (row : List Val) : List Nat :=
  ((rowLists t columns sep row).map List.length).dedup

/-- Shorthand for writing concrete `Str` values. -/
def chrs (s : String) : Str := s.toList

/-- Shorthand for writing concrete string cells. -/
def vstr (s : String) : Val := Val.str s.toList

/-- A concrete table with two aligned two-token columns and a passthrough
column, used to witness the row-count law. -/
def wtabC1 : Table :=
  ⟨[chrs "A", chrs "B", chrs "C"], [[vstr "a,b", vstr "x,y", vstr "keep"]]⟩

/-- A concrete multi-value table: token `a` occurs twice, token `b` once. -/
def wtabC7 : Table := ⟨[chrs "X"], [[vstr "a,b"], [vstr "a"]]⟩

/-- A table whose existing column `X__a` collides with the indicator name
generated from column `X`'s token `a`. -/
def wtabC8 : Table := ⟨[chrs "X", chrs "X__a"], [[vstr "a", vstr "z"]]⟩

/-- Right-stripping, the second phase of `stripStr`. -/
def stripRight (s : Str) : Str :=
  (s.reverse.dropWhile Char.isWhitespace).reverse

/-! ### Lemmas about `stripStr` -/

theorem dropWhile_idem (p : α → Bool) (l : List α) :
    (l.dropWhile p).dropWhile p = l.dropWhile p := by
  cases h : l.dropWhile p with
  | nil => simp
  | cons a t =>
    have ha : p a = false := by
      have h' := List.head?_dropWhile_not p l
      rw [h] at h'
      simpa using h'
    simp [List.dropWhile_cons, ha]

theorem stripStr_eq_stripRight_dropWhile (s : Str) :
    stripStr s = stripRight (s.dropWhile Char.isWhitespace) := rfl

theorem stripRight_idem (l : Str) : stripRight (stripRight l) = stripRight l := by
  unfold stripRight
  rw [List.reverse_reverse, dropWhile_idem]

theorem isPrefix_stripRight (l : Str) : stripRight l <+: l := by
  have h : List.IsSuffix (l.reverse.dropWhile Char.isWhitespace) l.reverse :=
    List.dropWhile_suffix _
  have h2 : (l.reverse.dropWhile Char.isWhitespace).reverse <+: l.reverse.reverse :=
    List.reverse_prefix.mpr h
  rw [List.reverse_reverse] at h2
  exact h2

theorem dropWhile_head_false {α : Type} {p : α → Bool} {l t : List α} {a : α}
    (h : l.dropWhile p = a :: t) : p a = false := by
  have h' := List.head?_dropWhile_not p l
  rw [h] at h'
  simpa using h'

theorem stripStr_idem (s : Str) : stripStr (stripStr s) = stripStr s := by
  rw [stripStr_eq_stripRight_dropWhile, stripStr_eq_stripRight_dropWhile]
  cases h : (s.dropWhile Char.isWhitespace) with
  | nil => simp [stripRight]
  | cons a t =>
    have ha : Char.isWhitespace a = false := dropWhile_head_false h
    cases hR : stripRight (a :: t) with
    | nil => simp [hR, stripRight]
    | cons a' t' =>
      have hpre := isPrefix_stripRight (a :: t)
      rw [hR] at hpre
      obtain ⟨u, hu⟩ := hpre
      have ha' : a' = a := by
        cases hu
        rfl
      rw [ha'] at hR ⊢
      rw [List.dropWhile_cons_of_neg (by simp [ha])]
      have hidem := stripRight_idem (a :: t)
      rw [hR] at hidem
      exact hidem

theorem stripStr_sublist (s : Str) : List.Sublist (stripStr s) s := by
  rw [stripStr_eq_stripRight_dropWhile]
  have h1 : List.Sublist (stripRight (s.dropWhile Char.isWhitespace))
      (s.dropWhile Char.isWhitespace) :=
    (isPrefix_stripRight _).sublist
  exact h1.trans (List.dropWhile_sublist _)

/-! ### Lemmas about `List.splitOn` pieces and the tokenizer -/

theorem mem_splitOnP_false {p : α → Bool} :
    ∀ {l : List α} {piece : List α}, piece ∈ l.splitOnP p → ∀ a ∈ piece, p a = false := by
  intro l
  induction l with
  | nil =>
    intro piece hp a ha
    simp only [List.splitOnP_nil, List.mem_singleton] at hp
    subst hp
    simp at ha
  | cons x xs ih =>
    intro piece hp a ha
    rw [List.splitOnP_cons] at hp
    by_cases hx : p x
    · rw [if_pos hx] at hp
      rcases List.mem_cons.mp hp with h | h
      · subst h; simp at ha
      · exact ih h a ha
    · rw [if_neg hx] at hp
      cases hsp : xs.splitOnP p with
      | nil => exact absurd hsp (List.splitOnP_ne_nil p xs)
      | cons hd tl =>
        rw [hsp] at hp
        simp only [List.modifyHead, List.mem_cons] at hp
        rcases hp with h | h
        · subst h
          rcases List.mem_cons.mp ha with h' | h'
          · subst h'; simpa using hx
          · exact ih (by rw [hsp]; exact List.mem_cons_self hd tl) a h'
        · exact ih (by rw [hsp]; exact List.mem_cons_of_mem hd h) a ha

theorem mem_splitOn_not_mem {sep : Char} {l piece : Str} (h : piece ∈ l.splitOn sep) :
    sep ∉ piece := by
  intro hmem
  have := mem_splitOnP_false (p := (· == sep)) h sep hmem
  simp at this

/-- Every token the tokenizer emits is non-empty, equal to its own strip, and
free of the separator character. -/
theorem mem_split_to_list {x : Option Str} {sep : Char} {t : Str}
    (h : t ∈ _split_to_list x sep) :
    t ≠ [] ∧ stripStr t = t ∧ sep ∉ t := by
  match x with
  | none => simp [_split_to_list] at h
  | some s =>
    simp only [_split_to_list, List.mem_map, List.mem_filter] at h
    obtain ⟨piece, ⟨hpm, hpf⟩, ht⟩ := h
    have hne : stripStr piece ≠ [] := by simpa using hpf
    subst ht
    refine ⟨hne, stripStr_idem piece, ?_⟩
    intro hsep
    exact mem_splitOn_not_mem hpm ((stripStr_sublist piece).subset hsep)

theorem split_to_list_none (sep : Char) : _split_to_list none sep = [] := rfl

/-! ### Claim C9: multi-value column detection -/

/-- C9 (corrected). For a candidate column, membership in the detector's
output is exactly `share ≥ min_share`, the share is the fraction of
non-missing values containing the delimiter, and a column with zero
non-missing values has share `0`; such a column is never flagged when
`min_share > 0`, but — contrary to the claim's "for any `min_share` in
`[0,1]`" — it is flagged whenever `min_share ≤ 0`. -/
theorem C9_detect_share_flagging (df : Table) (cand : List Str) (sep : Char)
    (min_share : Rat) (c : Str) (hc : c ∈ cand) :
    (c ∈ detect_multivalue_columns df cand sep min_share ↔
      min_share ≤ shareOf df c sep) ∧
    (colStrs df c ≠ [] →
      shareOf df c sep =
        (((colStrs df c).filter (fun v => v.contains sep)).length : Rat) /
          ((colStrs df c).length : Rat)) ∧
    (colStrs df c = [] →
      shareOf df c sep = 0 ∧
        (c ∈ detect_multivalue_columns df cand sep min_share ↔ min_share ≤ 0)) := by
  have hmem : c ∈ detect_multivalue_columns df cand sep min_share ↔
      min_share ≤ shareOf df c sep := by
    simp [detect_multivalue_columns, List.mem_filter, hc]
  refine ⟨hmem, ?_, ?_⟩
  · intro hne
    rw [shareOf]
    simp only [List.length_eq_zero]
    rw [if_neg hne]
  · intro hnil
    have hz : shareOf df c sep = 0 := by
      rw [shareOf]
      simp [hnil]
    exact ⟨hz, by rw [hmem, hz]⟩

/-- C9 counterexample: a column with zero non-missing values is flagged at
`min_share = 0`, refuting "never flagged, for any `min_share` in `[0,1]`". -/
theorem C9_counterexample :
    colStrs ⟨[chrs "A"], [[Val.missing]]⟩ (chrs "A") = [] ∧
    detect_multivalue_columns ⟨[chrs "A"], [[Val.missing]]⟩ [chrs "A"] ',' 0 =
      [chrs "A"] := by
  constructor
  · rfl
  · decide

/-- Witness for C9 at a concrete input. -/
theorem C9_witness :
    chrs "A" ∈ [chrs "A"] ∧
    ((chrs "A" ∈ detect_multivalue_columns ⟨[chrs "A"], [[Val.missing]]⟩
        [chrs "A"] ',' 1 ↔
      (1 : Rat) ≤ shareOf ⟨[chrs "A"], [[Val.missing]]⟩ (chrs "A") ',') ∧
    (colStrs ⟨[chrs "A"], [[Val.missing]]⟩ (chrs "A") ≠ [] →
      shareOf ⟨[chrs "A"], [[Val.missing]]⟩ (chrs "A") ',' =
        (((colStrs ⟨[chrs "A"], [[Val.missing]]⟩ (chrs "A")).filter
            (fun v => v.contains ',')).length : Rat) /
          ((colStrs ⟨[chrs "A"], [[Val.missing]]⟩ (chrs "A")).length : Rat)) ∧
    (colStrs ⟨[chrs "A"], [[Val.missing]]⟩ (chrs "A") = [] →
      shareOf ⟨[chrs "A"], [[Val.missing]]⟩ (chrs "A") ',' = 0 ∧
        (chrs "A" ∈ detect_multivalue_columns ⟨[chrs "A"], [[Val.missing]]⟩
            [chrs "A"] ',' 1 ↔ (1 : Rat) ≤ 0))) :=
  ⟨List.mem_singleton.mpr rfl,
   C9_detect_share_flagging ⟨[chrs "A"], [[Val.missing]]⟩ [chrs "A"] ',' 1 (chrs "A")
     (List.mem_singleton.mpr rfl)⟩

/-! ### Claim C3: the single-column explosion branch -/

/-- C3 (code_bug). Evaluating the code at a single-column explosion: each
output cell of the selected column is a residual 1-tuple (`('a',)`), not a
plain scalar, because `out[col] = out["_combined"]` assigns the tuples
themselves; the general multi-column unpacking path specialized to one
column (`unpackRowGeneralPath`) would instead produce the scalar token, as
the specification requires.  This also contradicts the source's own inline
comment ("When only one column is passed, `_combined` is a scalar, not a
tuple"). -/
theorem C3_single_column_tuple_cells :
    explode_aligned_columns ⟨[chrs "X"], [[Val.str (chrs "a,b")]]⟩ [chrs "X"] ','
        false false =
      .ok ⟨[chrs "X"], [[Val.tup [some (chrs "a")]], [Val.tup [some (chrs "b")]]]⟩ ∧
    unpackRow [chrs "X"] [chrs "X"] [Val.str (chrs "a,b")] (some [some (chrs "a")]) =
      [Val.tup [some (chrs "a")]] ∧
    unpackRowGeneralPath [chrs "X"] [chrs "X"] [Val.str (chrs "a,b")]
        (some [some (chrs "a")]) = [Val.str (chrs "a")] := by
  refine ⟨by decide, by decide, by decide⟩

/-! ### Claim C6: totality and shape of the tokenizer -/

/-- C6 (confirmed). The tokenizer is total (`_split_to_list` is a total
function, so no error is ever raised): a missing cell yields the empty token
sequence; a present cell is split on the exact single delimiter character,
each piece is whitespace-trimmed, and pieces empty after trimming are
dropped (equivalently: trim all pieces, then drop the empty ones); every
emitted token is non-empty, trim-fixed, and delimiter-free. -/
theorem C6_tokenizer_total (sep : Char) :
    _split_to_list none sep = [] ∧
    (∀ s : Str, _split_to_list (some s) sep =
      ((s.splitOn sep).map stripStr).filter (fun t => !t.isEmpty)) ∧
    (∀ x : Option Str, ∀ t ∈ _split_to_list x sep,
      t ≠ [] ∧ stripStr t = t ∧ sep ∉ t) := by
  refine ⟨rfl, ?_, ?_⟩
  · intro s
    simp only [_split_to_list]
    rw [List.filter_map]
    rfl
  · intro x t ht
    exact mem_split_to_list ht

/-- Witness for C6 at a concrete input. -/
theorem C6_witness :
    _split_to_list none ',' = [] ∧
    (_split_to_list (some (chrs " a , ,b ")) ',' =
      (((chrs " a , ,b ").splitOn ',').map stripStr).filter (fun t => !t.isEmpty)) ∧
    (chrs "a" ∈ _split_to_list (some (chrs " a , ,b ")) ',' ∧
      (chrs "a" ≠ [] ∧ stripStr (chrs "a") = chrs "a" ∧ ',' ∉ chrs "a")) :=
  ⟨(C6_tokenizer_total ',').1,
   (C6_tokenizer_total ',').2.1 (chrs " a , ,b "),
   by decide,
   (C6_tokenizer_total ',').2.2 (some (chrs " a , ,b ")) (chrs "a") (by decide)⟩

/-! ### Claim C10: tokenize after rejoin is the identity -/

/-- C10 (confirmed). Tokenizing the join (by the delimiter) of a sequence of
Tokens — per the data model, Tokens are whitespace-trimmed strings; the
hypotheses say each entry is trim-fixed, not pure whitespace (non-empty
after trimming) and contains no delimiter occurrence — returns exactly the
original sequence. -/
theorem C10_tokenize_join_roundtrip (sep : Char) (ts : List Str)
    (h : ∀ t ∈ ts, stripStr t = t ∧ stripStr t ≠ [] ∧ sep ∉ t) :
    _split_to_list (some (List.intercalate [sep] ts)) sep = ts := by
  cases ts with
  | nil => rfl
  | cons a l =>
    simp only [_split_to_list]
    have hsplit : (List.intercalate [sep] (a :: l)).splitOn sep = a :: l :=
      List.splitOn_intercalate (a :: l) sep (fun t ht => (h t ht).2.2) (by simp)
    rw [hsplit]
    have hfilter : (a :: l).filter (fun p => !(stripStr p).isEmpty) = a :: l := by
      refine List.filter_eq_self.mpr ?_
      intro t ht
      simpa using (h t ht).2.1
    rw [hfilter]
    exact (List.map_congr_left (fun t ht => (h t ht).1)).trans (List.map_id _)

/-- Witness for C10 at a concrete input. -/
theorem C10_witness :
    (∀ t ∈ [chrs "a b", chrs "c"],
      stripStr t = t ∧ stripStr t ≠ [] ∧ ',' ∉ t) ∧
    _split_to_list (some (List.intercalate [','] [chrs "a b", chrs "c"])) ',' =
      [chrs "a b", chrs "c"] :=
  ⟨by decide, C10_tokenize_join_roundtrip ',' [chrs "a b", chrs "c"] (by decide)⟩

/-! ### Structural lemmas about `explode_aligned_columns` -/

theorem find?_missing_none (df : Table) (columns : List Str)
    (hcols : ∀ c ∈ columns, c ∈ df.cols) :
    columns.find? (fun c => !(df.cols.contains c)) = none := by
  rw [List.find?_eq_none]
  intro x hx
  simpa using hcols x hx

theorem combineRows_padding (idx : Nat) (lss : List (List (List Str))) :
    combineRows false idx lss =
      .ok (lss.map (fun ls => (zipStar (_align_lists ls)).filter keepTuple)) := by
  induction lss generalizing idx with
  | nil => rfl
  | cons ls rest ih =>
    simp only [combineRows, List.map_cons]
    rw [show _combine_row false idx ls =
      .ok ((zipStar (_align_lists ls)).filter keepTuple) from rfl]
    rw [ih (idx + 1)]

theorem zip_self_flatMap {R T S : Type} (f : R → T) (g : R × T → List S) :
    ∀ rows : List R,
      (rows.zip (rows.map f)).flatMap g = rows.flatMap (fun r => g (r, f r))
  | [] => rfl
  | r :: rest => by
    simp only [List.map_cons, List.zip_cons_cons, List.flatMap_cons]
    rw [zip_self_flatMap f g rest]

theorem flatMap_congr_mem {R S : Type} {rows : List R} {f g : R → List S}
    (h : ∀ r ∈ rows, f r = g r) : rows.flatMap f = rows.flatMap g := by
  induction rows with
  | nil => rfl
  | cons r rest ih =>
    simp only [List.flatMap_cons]
    rw [h r (List.mem_cons_self r rest), ih (fun x hx => h x (List.mem_cons_of_mem r hx))]

theorem assemble_true {T : Type} (tupf : List Val → List T)
    (u : List Val → Option T → List Val) (rows : List (List Val)) :
    (rows.flatMap
        (fun r => if (tupf r).isEmpty then [(r, none)]
          else (tupf r).map (fun t => (r, some t)))).map (fun rc => u rc.1 rc.2) =
      rows.flatMap (fun r =>
        if (tupf r).isEmpty then [u r none]
        else (tupf r).map (fun t => u r (some t))) := by
  rw [List.map_flatMap]
  refine flatMap_congr_mem ?_
  intro r _
  by_cases hts : (tupf r).isEmpty
  · simp [hts]
  · simp [hts, List.map_map, Function.comp]

theorem assemble_false {T : Type} (tupf : List Val → List T)
    (u : List Val → Option T → List Val) (rows : List (List Val)) :
    ((rows.flatMap
        (fun r => if (tupf r).isEmpty then [(r, none)]
          else (tupf r).map (fun t => (r, some t)))).filter
        (fun rc => rc.2.isSome)).map (fun rc => u rc.1 rc.2) =
      rows.flatMap (fun r =>
        if (tupf r).isEmpty then []
        else (tupf r).map (fun t => u r (some t))) := by
  rw [List.filter_flatMap, List.map_flatMap]
  refine flatMap_congr_mem ?_
  intro r _
  by_cases hts : (tupf r).isEmpty
  · simp [hts]
  · have hpred : ((fun rc : List Val × Option T => rc.2.isSome) ∘
        (fun t => (r, some t))) = fun _ => true := by
      funext t
      simp
    simp [hts, List.filter_map, hpred, List.filter_true, List.map_map,
      Function.comp_def]

/-- In padding mode with all selected columns present, the call reduces to
the unpack-step dispatch: the pandas shape check either fails
(`frameCheckFails`, yielding the `ValueError`) or the surviving pairs are
written back. -/
theorem explode_padding_reduce (df : Table) (columns : List Str) (sep : Char)
    (keep : Bool) (hcols : ∀ c ∈ columns, c ∈ df.cols) :
    explode_aligned_columns df columns sep keep false =
      (if frameCheckFails df columns sep keep then .error .frameShape
       else .ok ⟨df.cols, (filteredPairs df columns sep keep).map
         (fun rc => unpackRow df.cols columns rc.1 rc.2)⟩) := by
  have hE : (df.rows.zip (df.rows.map
      (fun r => List.filter keepTuple (zipStar (_align_lists (rowLists df columns sep r)))))).flatMap
      (fun rts => if rts.2.isEmpty then [(rts.1, none)]
        else rts.2.map (fun t => (rts.1, some t))) = explodedPairs df columns sep := by
    rw [zip_self_flatMap]
    rfl
  cases keep with
  | true =>
    simp only [explode_aligned_columns, find?_missing_none df columns hcols,
      combineRows_padding, List.map_map, eq_self_iff_true, if_true]
    rw [show ((fun ls => List.filter keepTuple (zipStar (_align_lists ls))) ∘
        rowLists df columns sep) =
      (fun r => List.filter keepTuple (zipStar (_align_lists (rowLists df columns sep r))))
      from rfl]
    rw [hE]
    rfl
  | false =>
    simp only [explode_aligned_columns, find?_missing_none df columns hcols,
      combineRows_padding, List.map_map, Bool.false_eq_true, if_false]
    rw [show ((fun ls => List.filter keepTuple (zipStar (_align_lists ls))) ∘
        rowLists df columns sep) =
      (fun r => List.filter keepTuple (zipStar (_align_lists (rowLists df columns sep r))))
      from rfl]
    rw [hE]
    rfl

/-- When the pandas shape check fails, the padding-mode call raises the
modeled `ValueError` and produces no table at all. -/
theorem explode_padding_err (df : Table) (columns : List Str) (sep : Char)
    (keep : Bool) (hcols : ∀ c ∈ columns, c ∈ df.cols)
    (hchk : frameCheckFails df columns sep keep = true) :
    explode_aligned_columns df columns sep keep false = .error .frameShape := by
  rw [explode_padding_reduce df columns sep keep hcols, if_pos hchk]

/-- When the pandas shape check passes, the explosion succeeds and its rows
are the per-origin-row emissions concatenated in origin-row order (origin
order outer, tuple order inner). -/
theorem explode_padding_eq (df : Table) (columns : List Str) (sep : Char)
    (keep : Bool) (hcols : ∀ c ∈ columns, c ∈ df.cols)
    (hchk : frameCheckFails df columns sep keep = false) :
    explode_aligned_columns df columns sep keep false =
      .ok ⟨df.cols, df.rows.flatMap (emitRow df columns sep keep)⟩ := by
  rw [explode_padding_reduce df columns sep keep hcols,
    if_neg (by rw [hchk]; simp)]
  refine congrArg Except.ok (congrArg (Table.mk df.cols) ?_)
  cases keep with
  | true =>
    rw [show filteredPairs df columns sep true =
      df.rows.flatMap (fun r => if (rowTuples df columns sep r).isEmpty
        then [(r, none)]
        else (rowTuples df columns sep r).map (fun t => (r, some t))) from rfl]
    rw [assemble_true (fun r => rowTuples df columns sep r)
      (fun r c => unpackRow df.cols columns r c)]
    rfl
  | false =>
    rw [show filteredPairs df columns sep false =
      (df.rows.flatMap (fun r => if (rowTuples df columns sep r).isEmpty
        then [(r, none)]
        else (rowTuples df columns sep r).map (fun t => (r, some t)))).filter
        (fun rc => rc.2.isSome) from rfl]
    rw [assemble_false (fun r => rowTuples df columns sep r)
      (fun r c => unpackRow df.cols columns r c)]
    rfl

theorem mem_of_head?_eq_some {α : Type} {l : List α} {a : α}
    (h : l.head? = some a) : a ∈ l := by
  rcases List.head?_eq_some_iff.mp h with ⟨ys, hys⟩
  rw [hys]
  exact List.mem_cons_self a ys

theorem mem_explodedPairs_isSome {df : Table} {columns : List Str} {sep : Char}
    (h : ∀ r ∈ df.rows, rowTuples df columns sep r ≠ []) :
    ∀ rc ∈ explodedPairs df columns sep, rc.2.isSome = true := by
  intro rc hrc
  rw [explodedPairs] at hrc
  rcases List.mem_flatMap.mp hrc with ⟨r, hr, hcontrib⟩
  rw [if_neg (by simpa using h r hr)] at hcontrib
  rcases List.mem_map.mp hcontrib with ⟨t, _, ht⟩
  rw [← ht]
  rfl

/-- With the `notna` filter active every surviving `_combined` entry is a
tuple, so the pandas shape check never fails. -/
theorem frameCheckFails_keep_false (df : Table) (columns : List Str) (sep : Char) :
    frameCheckFails df columns sep false = false := by
  rw [frameCheckFails]
  cases hh : (filteredPairs df columns sep false).head? with
  | none => simp
  | some rc0 =>
    have hmem := mem_of_head?_eq_some hh
    rw [filteredPairs] at hmem
    simp only [Bool.false_eq_true, if_false] at hmem
    have hsome : rc0.2.isSome = true := by
      have := List.mem_filter.mp hmem
      simpa using this.2
    obtain ⟨v, hv⟩ := Option.isSome_iff_exists.mp hsome
    simp [hv]

/-- With a single selected column the DataFrame is never constructed, so the
shape check never fails. -/
theorem frameCheckFails_single (df : Table) (columns : List Str) (sep : Char)
    (keep : Bool) (h1 : columns.length = 1) :
    frameCheckFails df columns sep keep = false := by
  rw [frameCheckFails, h1]
  simp

/-- When every row has at least one aligned tuple, every `_combined` entry is
a tuple and the shape check never fails. -/
theorem frameCheckFails_of_nonempty (df : Table) (columns : List Str) (sep : Char)
    (keep : Bool) (h : ∀ r ∈ df.rows, rowTuples df columns sep r ≠ []) :
    frameCheckFails df columns sep keep = false := by
  rw [frameCheckFails]
  cases hh : (filteredPairs df columns sep keep).head? with
  | none => simp
  | some rc0 =>
    have hmem : rc0 ∈ explodedPairs df columns sep := by
      have hm := mem_of_head?_eq_some hh
      rw [filteredPairs] at hm
      cases keep with
      | true => simpa using hm
      | false =>
        simp only [Bool.false_eq_true, if_false] at hm
        exact (List.mem_filter.mp hm).1
    have hsome := mem_explodedPairs_isSome h rc0 hmem
    obtain ⟨v, hv⟩ := Option.isSome_iff_exists.mp hsome
    simp [hv]

/-- With `keep_empty_rows` and at least two (or zero) selected columns, a
first origin row without aligned tuples makes the leading `_combined` entry
NaN: the shape check fails. -/
theorem frameCheckFails_first_empty (df : Table) (columns : List Str) (sep : Char)
    (hk : columns.length ≠ 1) {r0 : List Val} {rest : List (List Val)}
    (hrows : df.rows = r0 :: rest) (h0 : rowTuples df columns sep r0 = []) :
    frameCheckFails df columns sep true = true := by
  rw [frameCheckFails]
  have hfp : (filteredPairs df columns sep true).head? =
      some (r0, (none : Option (List (Option Str)))) := by
    rw [show filteredPairs df columns sep true = explodedPairs df columns sep
      from rfl]
    rw [explodedPairs, hrows, List.flatMap_cons, h0]
    simp
  rw [hfp]
  simp [hk]

/-- With `keep_empty_rows`, a first origin row that does have aligned tuples
makes the leading `_combined` entry a tuple: the shape check passes. -/
theorem frameCheckFails_first_nonempty (df : Table) (columns : List Str)
    (sep : Char) {r0 : List Val} {rest : List (List Val)}
    (hrows : df.rows = r0 :: rest) (h0 : rowTuples df columns sep r0 ≠ []) :
    frameCheckFails df columns sep true = false := by
  obtain ⟨t0, ts, hts⟩ : ∃ t0 ts, rowTuples df columns sep r0 = t0 :: ts := by
    cases h : rowTuples df columns sep r0 with
    | nil => exact absurd h h0
    | cons t0 ts => exact ⟨t0, ts, rfl⟩
  rw [frameCheckFails]
  have hfp : (filteredPairs df columns sep true).head? =
      some (r0, some t0) := by
    rw [show filteredPairs df columns sep true = explodedPairs df columns sep
      from rfl]
    rw [explodedPairs, hrows, List.flatMap_cons, hts]
    simp
  rw [hfp]
  simp

/-! ### Claim C4: column validation of the explosion transform -/

theorem combine_row_nil (strict : Bool) (idx : Nat) :
    _combine_row strict idx [] = .ok [] := by
  cases strict <;> rfl

theorem combineRows_nil_lists (strict : Bool) :
    ∀ (idx : Nat) (lss : List (List (List Str))), (∀ ls ∈ lss, ls = []) →
      combineRows strict idx lss = .ok (lss.map (fun _ => [])) := by
  intro idx lss
  induction lss generalizing idx with
  | nil => intro _; rfl
  | cons ls rest ih =>
    intro hall
    have h0 : ls = [] := hall ls (List.mem_cons_self ls rest)
    subst h0
    simp only [combineRows, combine_row_nil, List.map_cons]
    rw [ih (idx + 1) (fun x hx => hall x (List.mem_cons_of_mem _ hx))]

theorem flatMap_none_filter {R T : Type} (rows : List R) :
    ((rows.flatMap (fun r => [(r, (none : Option T))])).filter
      (fun rc => rc.2.isSome)) = [] := by
  induction rows with
  | nil => rfl
  | cons r rest ih => simpa using ih

theorem flatMap_none_head {R T : Type} (r0 : R) (rest : List R) :
    (((r0 :: rest).flatMap (fun r => [(r, (none : Option T))])).head?) =
      some (r0, none) := rfl

theorem combined_nil_cols (df : Table) (sep : Char) (strict : Bool) :
    combineRows strict 0 (df.rows.map (rowLists df [] sep)) =
      .ok ((df.rows.map (rowLists df [] sep)).map (fun _ => [])) :=
  combineRows_nil_lists strict 0 _ (fun ls hls => by
    rcases List.mem_map.mp hls with ⟨r, _, hr⟩
    rw [← hr]
    rfl)

theorem exploded_nil_cols (df : Table) (sep : Char) :
    (df.rows.zip (df.rows.map
        ((fun _ => ([] : List (List (Option Str)))) ∘ rowLists df [] sep))).flatMap
      (fun rts => if rts.2.isEmpty then [(rts.1, none)]
        else rts.2.map (fun t => (rts.1, some t))) =
      df.rows.flatMap (fun r => [(r, (none : Option (List (Option Str))))]) := by
  rw [zip_self_flatMap]
  rfl

/-- With an empty selection and `keep_empty_rows = false`, the `notna` filter
drops every (NaN) `_combined` entry, the shape check passes vacuously and the
result is an empty table carrying the original column names. -/
theorem explode_nil_cols_drop (df : Table) (sep : Char) (strict : Bool) :
    explode_aligned_columns df [] sep false strict = .ok ⟨df.cols, []⟩ := by
  simp only [explode_aligned_columns, List.find?_nil, combined_nil_cols,
    List.map_map]
  rw [exploded_nil_cols df sep]
  rw [flatMap_none_filter df.rows]
  rfl

/-- With an empty selection, `keep_empty_rows = true` and at least one row,
the first `_combined` entry is NaN while `len(columns) = 0 ≠ 1`: the
`pd.DataFrame` construction raises the shape `ValueError`. -/
theorem explode_nil_cols_keep (df : Table) (sep : Char) (strict : Bool)
    (r0 : List Val) (rest : List (List Val)) (hrows : df.rows = r0 :: rest) :
    explode_aligned_columns df [] sep true strict = .error .frameShape := by
  simp only [explode_aligned_columns, List.find?_nil, combined_nil_cols,
    List.map_map]
  rw [exploded_nil_cols df sep, hrows]
  simp only [if_true]
  rw [flatMap_none_head r0 rest]
  rfl

/-- C4 (corrected). If any selected column is absent from the table, the call
fails with a column-not-found error naming a missing selected column; the
error is produced before any row is combined or emitted, and being a pure
`Except.error` there is no partial output.  The non-emptiness of `columns` is
NOT checked the same way (refuting that half of the claim,
`C4_counterexample`): an empty `columns` argument passes column validation,
and the call then returns normally exactly when `keep_empty_rows` is false
(yielding an empty table with the original column names); with
`keep_empty_rows` true and a non-empty table it instead raises the
`pd.DataFrame` shape `ValueError` (`frameShape`), not a column error. -/
theorem C4_missing_column_error (df : Table) (columns : List Str) (sep : Char)
    (keep strict : Bool) (c : Str) (hc : c ∈ columns) (habs : c ∉ df.cols) :
    (∃ c', c' ∈ columns ∧ c' ∉ df.cols ∧
      explode_aligned_columns df columns sep keep strict =
        .error (.colNotFound c')) ∧
    (∀ df2 : Table, ∀ sep2 : Char, ∀ s2 : Bool,
      explode_aligned_columns df2 [] sep2 false s2 = .ok ⟨df2.cols, []⟩) ∧
    (∀ df2 : Table, ∀ sep2 : Char, ∀ s2 : Bool, ∀ r0 : List Val,
      ∀ rest : List (List Val), df2.rows = r0 :: rest →
      explode_aligned_columns df2 [] sep2 true s2 = .error .frameShape) := by
  refine ⟨?_, fun df2 sep2 s2 => explode_nil_cols_drop df2 sep2 s2,
    fun df2 sep2 s2 r0 rest hrows => explode_nil_cols_keep df2 sep2 s2 r0 rest hrows⟩
  have hp : (!(df.cols.contains c)) = true := by simpa using habs
  have hsome : (columns.find? (fun x => !(df.cols.contains x))).isSome :=
    List.find?_isSome.mpr ⟨c, hc, hp⟩
  obtain ⟨c', hfind⟩ := Option.isSome_iff_exists.mp hsome
  have hpc' : (!(df.cols.contains c')) = true := by
    have h0 := List.find?_some hfind
    simpa using h0
  have hmem' : c' ∈ columns := List.mem_of_find?_eq_some hfind
  have habs' : c' ∉ df.cols := by simpa using hpc'
  refine ⟨c', hmem', habs', ?_⟩
  simp only [explode_aligned_columns, hfind]

/-- C4 counterexample: an empty `columns` argument is not rejected with a
column error — with `keep_empty_rows` false the call returns successfully
(an empty table), refuting "requires `columns` non-empty … otherwise raises
`ColumnNotFoundError`". -/
theorem C4_counterexample :
    explode_aligned_columns ⟨[chrs "X"], [[Val.str (chrs "a")]]⟩ [] ',' false false =
      .ok ⟨[chrs "X"], []⟩ := by
  decide

/-- Witness for C4 at a concrete input. -/
theorem C4_witness :
    chrs "Y" ∈ [chrs "Y"] ∧ chrs "Y" ∉ [chrs "X"] ∧
    (∃ c', c' ∈ [chrs "Y"] ∧ c' ∉ ([chrs "X"] : List Str) ∧
      explode_aligned_columns ⟨[chrs "X"], [[Val.str (chrs "a")]]⟩ [chrs "Y"] ','
          false false = .error (.colNotFound c')) ∧
    explode_aligned_columns ⟨[chrs "X"], [[Val.str (chrs "a")]]⟩ [] ',' false false =
      .ok ⟨[chrs "X"], []⟩ ∧
    explode_aligned_columns ⟨[chrs "X"], [[Val.str (chrs "a")]]⟩ [] ',' true false =
      .error .frameShape :=
  ⟨by decide, by decide,
   (C4_missing_column_error ⟨[chrs "X"], [[Val.str (chrs "a")]]⟩ [chrs "Y"] ','
     false false (chrs "Y") (by decide) (by decide)).1,
   (C4_missing_column_error ⟨[chrs "X"], [[Val.str (chrs "a")]]⟩ [chrs "Y"] ','
     false false (chrs "Y") (by decide) (by decide)).2.1
     ⟨[chrs "X"], [[Val.str (chrs "a")]]⟩ ',' false,
   (C4_missing_column_error ⟨[chrs "X"], [[Val.str (chrs "a")]]⟩ [chrs "Y"] ','
     false false (chrs "Y") (by decide) (by decide)).2.2
     ⟨[chrs "X"], [[Val.str (chrs "a")]]⟩ ',' false
     [Val.str (chrs "a")] [] rfl⟩

/-! ### Claim C2: strict-mode alignment failure -/

theorem combineRows_strict_error :
    ∀ (lss : List (List (List Str))) (idx : Nat),
      (∃ ls ∈ lss, 1 < ((ls.map List.length).dedup).length) →
      ∃ j, j < lss.length ∧
        1 < (((lss.getD j []).map List.length).dedup).length ∧
        combineRows true idx lss =
          .error ⟨idx + j, ((lss.getD j []).map List.length).dedup⟩ := by
  intro lss
  induction lss with
  | nil =>
    intro idx hbad
    simp at hbad
  | cons ls rest ih =>
    intro idx hbad
    by_cases hl : 1 < ((ls.map List.length).dedup).length
    · refine ⟨0, by simp, by simpa using hl, ?_⟩
      have herr : _combine_row true idx ls =
          .error ⟨idx, (ls.map List.length).dedup⟩ := by
        simp [_combine_row, hl]
      simp [combineRows, herr]
    · have hbad' : ∃ ls' ∈ rest, 1 < ((ls'.map List.length).dedup).length := by
        rcases hbad with ⟨l0, hmem, h0⟩
        rcases List.mem_cons.mp hmem with h | h
        · exact absurd (h ▸ h0) hl
        · exact ⟨l0, h, h0⟩
      obtain ⟨j, hj, hlen, heq⟩ := ih (idx + 1) hbad'
      refine ⟨j + 1, by simpa using hj, by simpa using hlen, ?_⟩
      have hok : _combine_row true idx ls =
          .ok ((zipStar (ls.map (·.map some))).filter keepTuple) := by
        simp [_combine_row, hl]
      simp only [combineRows, hok, heq, List.getD_cons_succ]
      have hidx : idx + 1 + j = idx + (j + 1) := by omega
      rw [hidx]

/-- C2 (confirmed). With strict mode enabled, if some row's selected columns
tokenize to unequal sequence lengths, the whole call returns an
`AlignmentError` (the `ValueError` of the source) carrying the index of an
offending row — the first one — together with the set of distinct lengths
observed at that row; no table is produced (the result is the error, so
there is no partial output), and the input table, threaded through a pure
function, is untouched. -/
theorem C2_strict_alignment_error (df : Table) (columns : List Str) (sep : Char)
    (keep : Bool) (hcols : ∀ c ∈ columns, c ∈ df.cols)
    (hbad : ∃ i, i < df.rows.length ∧
      1 < (rowDistinctLengths df columns sep (df.rows.getD i [])).length) :
    ∃ i, i < df.rows.length ∧
      1 < (rowDistinctLengths df columns sep (df.rows.getD i [])).length ∧
      explode_aligned_columns df columns sep keep true =
        .error (.alignment
          ⟨i, rowDistinctLengths df columns sep (df.rows.getD i [])⟩) := by
  have hgetD : ∀ j, j < df.rows.length →
      (df.rows.map (rowLists df columns sep)).getD j [] =
        rowLists df columns sep (df.rows.getD j []) := by
    intro j hj
    rw [List.getD_eq_getElem?_getD, List.getD_eq_getElem?_getD, List.getElem?_map]
    rw [List.getElem?_eq_getElem hj]
    rfl
  have hbad' : ∃ ls ∈ df.rows.map (rowLists df columns sep),
      1 < ((ls.map List.length).dedup).length := by
    obtain ⟨i, hi, hlen⟩ := hbad
    refine ⟨rowLists df columns sep (df.rows.getD i []), ?_, hlen⟩
    have := hgetD i hi
    rw [← this]
    have hi' : i < (df.rows.map (rowLists df columns sep)).length := by
      simpa using hi
    rw [List.getD_eq_getElem?_getD, List.getElem?_eq_getElem hi']
    exact List.getElem_mem hi'
  obtain ⟨j, hj, hlen, heq⟩ :=
    combineRows_strict_error (df.rows.map (rowLists df columns sep)) 0 hbad'
  have hjlen : j < df.rows.length := by simpa using hj
  have hrw : ((df.rows.map (rowLists df columns sep)).getD j [] |>.map
      List.length).dedup = rowDistinctLengths df columns sep (df.rows.getD j []) := by
    rw [hgetD j hjlen]
    rfl
  refine ⟨j, hjlen, by rw [← hrw]; exact hlen, ?_⟩
  simp only [explode_aligned_columns, find?_missing_none df columns hcols]
  rw [heq, hrw, Nat.zero_add]

/-- Witness for C2 at a concrete input: columns `A = "a,b"`, `B = "c"` give
distinct token lengths `{2, 1}` at row 0. -/
theorem C2_witness :
    (∀ c ∈ [chrs "A", chrs "B"],
      c ∈ (⟨[chrs "A", chrs "B"],
        [[Val.str (chrs "a,b"), Val.str (chrs "c")]]⟩ : Table).cols) ∧
    (∃ i, i < (⟨[chrs "A", chrs "B"],
        [[Val.str (chrs "a,b"), Val.str (chrs "c")]]⟩ : Table).rows.length ∧
      1 < (rowDistinctLengths ⟨[chrs "A", chrs "B"],
        [[Val.str (chrs "a,b"), Val.str (chrs "c")]]⟩ [chrs "A", chrs "B"] ','
        ((⟨[chrs "A", chrs "B"],
          [[Val.str (chrs "a,b"), Val.str (chrs "c")]]⟩ : Table).rows.getD i [])).length) ∧
    (∃ i, i < (⟨[chrs "A", chrs "B"],
        [[Val.str (chrs "a,b"), Val.str (chrs "c")]]⟩ : Table).rows.length ∧
      1 < (rowDistinctLengths ⟨[chrs "A", chrs "B"],
        [[Val.str (chrs "a,b"), Val.str (chrs "c")]]⟩ [chrs "A", chrs "B"] ','
        ((⟨[chrs "A", chrs "B"],
          [[Val.str (chrs "a,b"), Val.str (chrs "c")]]⟩ : Table).rows.getD i [])).length ∧
      explode_aligned_columns ⟨[chrs "A", chrs "B"],
          [[Val.str (chrs "a,b"), Val.str (chrs "c")]]⟩ [chrs "A", chrs "B"] ','
          false true =
        .error (.alignment ⟨i, rowDistinctLengths ⟨[chrs "A", chrs "B"],
          [[Val.str (chrs "a,b"), Val.str (chrs "c")]]⟩ [chrs "A", chrs "B"] ','
          ((⟨[chrs "A", chrs "B"],
            [[Val.str (chrs "a,b"), Val.str (chrs "c")]]⟩ : Table).rows.getD i [])⟩)) :=
  ⟨by decide, ⟨0, by decide, by decide⟩,
   C2_strict_alignment_error
     ⟨[chrs "A", chrs "B"], [[Val.str (chrs "a,b"), Val.str (chrs "c")]]⟩
     [chrs "A", chrs "B"] ',' false (by decide) ⟨0, by decide, by decide⟩⟩

/-! ### Lemmas about `setCols` and `unpackRow` -/

theorem findIdx_beq_lt {tcols : List Str} {c : Str} (hc : c ∈ tcols) :
    tcols.findIdx (· == c) < tcols.length :=
  List.findIdx_lt_length_of_exists ⟨c, hc, by simp⟩

theorem getElem_findIdx_beq {tcols : List Str} {c : Str}
    (hlt : tcols.findIdx (· == c) < tcols.length) :
    tcols[tcols.findIdx (· == c)] = c := by
  have h := @List.findIdx_getElem _ (· == c) tcols hlt
  simpa using h

/-- Assigning values to selected columns leaves every position whose column
name is unselected untouched. -/
theorem setCols_getD_of_not_mem (tcols : List Str) :
    ∀ (columns : List Str) (vals : List Val) (row : List Val) (j : Nat),
      j < tcols.length → tcols.getD j [] ∉ columns →
      (∀ c ∈ columns, c ∈ tcols) →
      (setCols tcols columns vals row).getD j .missing = row.getD j .missing := by
  intro columns
  induction columns with
  | nil =>
    intro vals row j _ _ _
    rfl
  | cons c cs ih =>
    intro vals row j hj hnot hmem
    cases vals with
    | nil => rfl
    | cons v vs =>
      have hstep : setCols tcols (c :: cs) (v :: vs) row =
          setCols tcols cs vs (row.set (tcols.findIdx (· == c)) v) := rfl
      rw [hstep]
      rw [ih vs _ j hj (fun h => hnot (List.mem_cons_of_mem c h))
        (fun x hx => hmem x (List.mem_cons_of_mem c hx))]
      have hc : c ∈ tcols := hmem c (List.mem_cons_self c cs)
      have hidx : tcols.findIdx (· == c) < tcols.length := findIdx_beq_lt hc
      have hne : tcols.findIdx (· == c) ≠ j := by
        intro hcontra
        apply hnot
        have hj' : tcols.getD j [] = c := by
          rw [List.getD_eq_getElem?_getD, List.getElem?_eq_getElem hj]
          rw [← getElem_findIdx_beq hidx]
          simp [hcontra]
        rw [hj']
        exact List.mem_cons_self c cs
      rw [List.getD_eq_getElem?_getD, List.getD_eq_getElem?_getD,
        List.getElem?_set_ne hne]

/-- Assigning all-missing values to the selected columns makes every selected
position missing (column names assumed unique, as in a well-formed table). -/
theorem setCols_getD_of_mem_missing (tcols : List Str) (hnd : tcols.Nodup) :
    ∀ (columns : List Str) (vals : List Val) (row : List Val) (j : Nat),
      j < tcols.length → row.length = tcols.length →
      tcols.getD j [] ∈ columns →
      (∀ c ∈ columns, c ∈ tcols) →
      vals.length = columns.length →
      (∀ v ∈ vals, v = Val.missing) →
      (setCols tcols columns vals row).getD j .missing = Val.missing := by
  intro columns
  induction columns with
  | nil =>
    intro _ _ j _ _ hmem _ _ _
    simp at hmem
  | cons c cs ih =>
    intro vals row j hj hrow hmem hsub hlen hvals
    cases vals with
    | nil => simp at hlen
    | cons v vs =>
      have hstep : setCols tcols (c :: cs) (v :: vs) row =
          setCols tcols cs vs (row.set (tcols.findIdx (· == c)) v) := rfl
      rw [hstep]
      by_cases hjc : tcols.getD j [] ∈ cs
      · exact ih vs _ j hj (by simp [hrow]) hjc
          (fun x hx => hsub x (List.mem_cons_of_mem c hx))
          (by simpa using hlen) (fun x hx => hvals x (List.mem_cons_of_mem v hx))
      · have hc : tcols.getD j [] = c := by
          rcases List.mem_cons.mp hmem with h | h
          · exact h
          · exact absurd h hjc
        have hcm : c ∈ tcols := hsub c (List.mem_cons_self c cs)
        have hidx : tcols.findIdx (· == c) < tcols.length := findIdx_beq_lt hcm
        have hjeq : tcols.findIdx (· == c) = j := by
          have hinj := List.nodup_iff_injective_getElem.mp hnd
          have hvals_eq : tcols[tcols.findIdx (· == c)] = tcols[j] := by
            rw [getElem_findIdx_beq hidx]
            rw [List.getD_eq_getElem?_getD, List.getElem?_eq_getElem hj] at hc
            exact hc.symm
          have hfin : (⟨tcols.findIdx (· == c), hidx⟩ : Fin tcols.length) = ⟨j, hj⟩ :=
            hinj hvals_eq
          exact congrArg Fin.val hfin
        rw [hjeq]
        have hvm : v = Val.missing := hvals v (List.mem_cons_self v vs)
        rw [setCols_getD_of_not_mem tcols cs vs _ j hj (hc ▸ hjc)
          (fun x hx => hsub x (List.mem_cons_of_mem c hx))]
        rw [List.getD_eq_getElem?_getD, List.getElem?_set_self (by omega)]
        simp [hvm]

/-- Writing back any combined value never changes a position whose column is
unselected (both unpacking branches go through `setCols`). -/
theorem unpackRow_getD_of_not_mem (tcols columns : List Str) (r : List Val)
    (comb : Option (List (Option Str))) (j : Nat) (hj : j < tcols.length)
    (hnot : tcols.getD j [] ∉ columns) (hsub : ∀ c ∈ columns, c ∈ tcols) :
    (unpackRow tcols columns r comb).getD j .missing = r.getD j .missing := by
  rw [unpackRow.eq_def]
  cases hb : columns.length == 1 with
  | true =>
    simp only [hb, if_true]
    exact setCols_getD_of_not_mem tcols columns _ r j hj hnot hsub
  | false =>
    simp only [hb, Bool.false_eq_true, if_false]
    exact setCols_getD_of_not_mem tcols columns _ r j hj hnot hsub

/-- Unpacking a missing combined value sets every selected column to missing
and leaves every other column unchanged. -/
theorem unpackRow_none_getD (tcols : List Str) (hnd : tcols.Nodup)
    (columns : List Str) (r : List Val) (hsub : ∀ c ∈ columns, c ∈ tcols)
    (hr : r.length = tcols.length) (j : Nat) (hj : j < tcols.length) :
    (unpackRow tcols columns r none).getD j .missing =
      (if tcols.getD j [] ∈ columns then Val.missing else r.getD j .missing) := by
  by_cases hmem : tcols.getD j [] ∈ columns
  · rw [if_pos hmem, unpackRow]
    cases hb : columns.length == 1 with
    | true =>
      simp only [hb, if_true]
      refine setCols_getD_of_mem_missing tcols hnd columns _ r j hj hr hmem hsub ?_ ?_
      · have h1 : columns.length = 1 := by simpa using hb
        simp [h1]
      · intro v hv
        simpa using hv
    | false =>
      simp only [hb, Bool.false_eq_true, if_false]
      refine setCols_getD_of_mem_missing tcols hnd columns _ r j hj hr hmem hsub ?_ ?_
      · simp
      · intro v hv
        rcases List.mem_map.mp hv with ⟨i, _, hvi⟩
        exact hvi.symm
  · rw [if_neg hmem]
    exact unpackRow_getD_of_not_mem tcols columns r none j hj hmem hsub

/-! ### Claim C5: emptiness policy of the explosion transform -/

/-- C5 (corrected). In padding mode, a row whose aligned-tuple sequence is
empty (for example, all selected columns missing):
(i) with `keep_empty_rows = false` the call succeeds and the row contributes
zero output rows, for any number of selected columns;
(ii) with `keep_empty_rows = true` and exactly one selected column the call
succeeds;
(iii) but — refuting the claim's "for any number of selected columns" — with
`keep_empty_rows = true` and two or more (or zero) selected columns, if the
table's FIRST origin row is such a tuple-less row the whole call raises the
pandas `ValueError` (`frameShape`) from `pd.DataFrame(..., columns=...)`
instead of emitting anything;
(iv) with `keep_empty_rows = true` the call succeeds whenever the first
origin row does have aligned tuples (pandas then takes the tuple
constructor, which turns later NaN entries into all-missing rows).
Whenever the row's single kept row is emitted ((ii) and (iv)), it equals the
original row with every selected column set to missing and every other
column unchanged.  Stated for a non-empty selection over a well-formed table
(distinct column names, rectangular row). -/
theorem C5_empty_row_policy (df : Table) (columns : List Str) (sep : Char)
    (r : List Val)
    (hne : columns ≠ [])
    (hcols : ∀ c ∈ columns, c ∈ df.cols)
    (hnd : df.cols.Nodup)
    (hrect : r.length = df.cols.length)
    (hempty : rowTuples df columns sep r = []) :
    (explode_aligned_columns df columns sep false false =
        .ok ⟨df.cols, df.rows.flatMap (emitRow df columns sep false)⟩ ∧
      emitRow df columns sep false r = []) ∧
    (columns.length = 1 →
      explode_aligned_columns df columns sep true false =
        .ok ⟨df.cols, df.rows.flatMap (emitRow df columns sep true)⟩) ∧
    (∀ rest : List (List Val), columns.length ≠ 1 → df.rows = r :: rest →
      explode_aligned_columns df columns sep true false = .error .frameShape) ∧
    (∀ r0 : List Val, ∀ rest : List (List Val), df.rows = r0 :: rest →
      rowTuples df columns sep r0 ≠ [] →
      explode_aligned_columns df columns sep true false =
        .ok ⟨df.cols, df.rows.flatMap (emitRow df columns sep true)⟩) ∧
    emitRow df columns sep true r = [unpackRow df.cols columns r none] ∧
    (∀ j, j < df.cols.length →
      (unpackRow df.cols columns r none).getD j .missing =
        (if df.cols.getD j [] ∈ columns then Val.missing
         else r.getD j .missing)) := by
  refine ⟨⟨explode_padding_eq df columns sep false hcols
      (frameCheckFails_keep_false df columns sep), ?_⟩, ?_, ?_, ?_, ?_, ?_⟩
  · rw [emitRow, hempty]
    simp
  · intro h1
    exact explode_padding_eq df columns sep true hcols
      (frameCheckFails_single df columns sep true h1)
  · intro rest hk hrows
    exact explode_padding_err df columns sep true hcols
      (frameCheckFails_first_empty df columns sep hk hrows hempty)
  · intro r0 rest hrows h0
    exact explode_padding_eq df columns sep true hcols
      (frameCheckFails_first_nonempty df columns sep hrows h0)
  · rw [emitRow, hempty]
    simp
  · intro j hj
    exact unpackRow_none_getD df.cols hnd columns r hcols hrect j hj

/-- C5 counterexample: a single row with both selected columns missing and
`keep_empty_rows = true` makes the call raise the pandas `ValueError`
(leading NaN `_combined` entry against 2 named columns) instead of emitting
one all-missing row, refuting "exactly one output row when keep_empty_rows
is true ... for any number of selected columns". -/
theorem C5_counterexample :
    explode_aligned_columns ⟨[chrs "X", chrs "Y"], [[Val.missing, Val.missing]]⟩
      [chrs "X", chrs "Y"] ',' true false = .error .frameShape := by
  decide

/-- Witness for C5 at a concrete input: columns `X` and `Y` both missing in
the only row. -/
theorem C5_witness :
    ([chrs "X", chrs "Y"] : List Str) ≠ [] ∧
    rowTuples ⟨[chrs "X", chrs "Y", chrs "Z"],
        [[Val.missing, Val.missing, Val.str (chrs "stay")]]⟩
      [chrs "X", chrs "Y"] ',' [Val.missing, Val.missing, Val.str (chrs "stay")] = [] ∧
    (explode_aligned_columns ⟨[chrs "X", chrs "Y", chrs "Z"],
          [[Val.missing, Val.missing, Val.str (chrs "stay")]]⟩
        [chrs "X", chrs "Y"] ',' false false =
        .ok ⟨[chrs "X", chrs "Y", chrs "Z"],
          ([[Val.missing, Val.missing, Val.str (chrs "stay")]] :
            List (List Val)).flatMap
            (emitRow ⟨[chrs "X", chrs "Y", chrs "Z"],
              [[Val.missing, Val.missing, Val.str (chrs "stay")]]⟩
              [chrs "X", chrs "Y"] ',' false)⟩ ∧
      emitRow ⟨[chrs "X", chrs "Y", chrs "Z"],
          [[Val.missing, Val.missing, Val.str (chrs "stay")]]⟩
        [chrs "X", chrs "Y"] ',' false
        [Val.missing, Val.missing, Val.str (chrs "stay")] = []) ∧
    (([chrs "X", chrs "Y"] : List Str).length = 1 →
      explode_aligned_columns ⟨[chrs "X", chrs "Y", chrs "Z"],
          [[Val.missing, Val.missing, Val.str (chrs "stay")]]⟩
        [chrs "X", chrs "Y"] ',' true false =
        .ok ⟨[chrs "X", chrs "Y", chrs "Z"],
          ([[Val.missing, Val.missing, Val.str (chrs "stay")]] :
            List (List Val)).flatMap
            (emitRow ⟨[chrs "X", chrs "Y", chrs "Z"],
              [[Val.missing, Val.missing, Val.str (chrs "stay")]]⟩
              [chrs "X", chrs "Y"] ',' true)⟩) ∧
    (∀ rest : List (List Val), ([chrs "X", chrs "Y"] : List Str).length ≠ 1 →
      ([[Val.missing, Val.missing, Val.str (chrs "stay")]] : List (List Val)) =
        [Val.missing, Val.missing, Val.str (chrs "stay")] :: rest →
      explode_aligned_columns ⟨[chrs "X", chrs "Y", chrs "Z"],
          [[Val.missing, Val.missing, Val.str (chrs "stay")]]⟩
        [chrs "X", chrs "Y"] ',' true false = .error .frameShape) ∧
    (∀ r0 : List Val, ∀ rest : List (List Val),
      ([[Val.missing, Val.missing, Val.str (chrs "stay")]] : List (List Val)) =
        r0 :: rest →
      rowTuples ⟨[chrs "X", chrs "Y", chrs "Z"],
          [[Val.missing, Val.missing, Val.str (chrs "stay")]]⟩
        [chrs "X", chrs "Y"] ',' r0 ≠ [] →
      explode_aligned_columns ⟨[chrs "X", chrs "Y", chrs "Z"],
          [[Val.missing, Val.missing, Val.str (chrs "stay")]]⟩
        [chrs "X", chrs "Y"] ',' true false =
        .ok ⟨[chrs "X", chrs "Y", chrs "Z"],
          ([[Val.missing, Val.missing, Val.str (chrs "stay")]] :
            List (List Val)).flatMap
            (emitRow ⟨[chrs "X", chrs "Y", chrs "Z"],
              [[Val.missing, Val.missing, Val.str (chrs "stay")]]⟩
              [chrs "X", chrs "Y"] ',' true)⟩) ∧
    emitRow ⟨[chrs "X", chrs "Y", chrs "Z"],
        [[Val.missing, Val.missing, Val.str (chrs "stay")]]⟩
      [chrs "X", chrs "Y"] ',' true
      [Val.missing, Val.missing, Val.str (chrs "stay")] =
      [unpackRow [chrs "X", chrs "Y", chrs "Z"] [chrs "X", chrs "Y"]
        [Val.missing, Val.missing, Val.str (chrs "stay")] none] ∧
    (∀ j, j < ([chrs "X", chrs "Y", chrs "Z"] : List Str).length →
      (unpackRow [chrs "X", chrs "Y", chrs "Z"] [chrs "X", chrs "Y"]
          [Val.missing, Val.missing, Val.str (chrs "stay")] none).getD j .missing =
        (if ([chrs "X", chrs "Y", chrs "Z"] : List Str).getD j [] ∈
            ([chrs "X", chrs "Y"] : List Str) then Val.missing
         else ([Val.missing, Val.missing, Val.str (chrs "stay")] :
            List Val).getD j .missing)) :=
  ⟨by decide, by decide,
   C5_empty_row_policy ⟨[chrs "X", chrs "Y", chrs "Z"],
       [[Val.missing, Val.missing, Val.str (chrs "stay")]]⟩
     [chrs "X", chrs "Y"] ',' [Val.missing, Val.missing, Val.str (chrs "stay")]
     (by decide) (by decide) (by decide) (by decide) (by decide)⟩

/-! ### Claim C1: the explosion row-count law -/

theorem foldr_max_const : ∀ {ls : List (List Str)} {n : Nat}, ls ≠ [] →
    (∀ L ∈ ls, L.length = n) → (ls.map List.length).foldr Nat.max 0 = n := by
  intro ls
  induction ls with
  | nil => intro n h _; exact absurd rfl h
  | cons L rest ih =>
    intro n _ hall
    cases rest with
    | nil =>
      simp [hall L (List.mem_cons_self L [])]
    | cons L' rest' =>
      have htail := ih (by simp) (fun x hx => hall x (List.mem_cons_of_mem L hx))
      simp only [List.map_cons, List.foldr_cons] at htail ⊢
      rw [htail, hall L (List.mem_cons_self L _)]
      exact Nat.max_self n

theorem foldl_min_const {n : Nat} : ∀ {ls : List (List (Option Str))},
    (∀ L ∈ ls, L.length = n) →
    ls.foldl (fun acc L => Nat.min acc L.length) n = n := by
  intro ls
  induction ls with
  | nil => intro _; rfl
  | cons L rest ih =>
    intro hall
    simp only [List.foldl_cons]
    rw [hall L (List.mem_cons_self L rest)]
    have hmin : n.min n = n := Nat.min_self n
    rw [hmin]
    exact ih (fun x hx => hall x (List.mem_cons_of_mem L hx))

theorem align_lists_const_length {ls : List (List Str)} {n : Nat}
    (hne : ls ≠ []) (h : ∀ L ∈ ls, L.length = n) :
    _align_lists ls = ls.map (fun L => L.map some) := by
  rw [_align_lists]
  rw [foldr_max_const hne h]
  refine List.map_congr_left ?_
  intro L hL
  rw [h L hL]
  simp

theorem zipStar_const_length {ls : List (List (Option Str))} {n : Nat}
    (hne : ls ≠ []) (h : ∀ L ∈ ls, L.length = n) :
    zipStar ls = (List.range n).map (fun i => ls.map (fun L => L.getD i none)) := by
  cases ls with
  | nil => exact absurd rfl hne
  | cons L0 rest =>
    rw [zipStar]
    have h0 : L0.length = n := h L0 (List.mem_cons_self L0 rest)
    have hm : rest.foldl (fun acc L => Nat.min acc L.length) L0.length = n := by
      rw [h0]
      exact foldl_min_const (fun x hx => h x (List.mem_cons_of_mem L0 hx))
    rw [hm]

/-- Under the row-count law's hypothesis — every selected column tokenizes to
exactly `n ≥ 1` tokens — a row's aligned-tuple sequence has exactly `n`
entries. -/
theorem rowTuples_const_length (df : Table) (columns : List Str) (sep : Char)
    (r : List Val) (n : Nat) (hne : columns ≠ []) (hn : 1 ≤ n)
    (htok : ∀ c ∈ columns,
      (_split_to_list (cellStr (getCell r (colIdx df c))) sep).length = n) :
    (rowTuples df columns sep r).length = n := by
  have hlists : ∀ L ∈ rowLists df columns sep r, L.length = n := by
    intro L hL
    rcases List.mem_map.mp hL with ⟨c, hc, hcl⟩
    rw [← hcl]
    exact htok c hc
  have hlne : rowLists df columns sep r ≠ [] := by
    rw [rowLists]
    simpa using hne
  have haligned : _align_lists (rowLists df columns sep r) =
      (rowLists df columns sep r).map (fun L => L.map some) :=
    align_lists_const_length hlne hlists
  have halln : ∀ L ∈ (rowLists df columns sep r).map (fun L => L.map some),
      L.length = n := by
    intro L hL
    rcases List.mem_map.mp hL with ⟨L0, hL0, hLe⟩
    rw [← hLe]
    simpa using hlists L0 hL0
  have hzip : zipStar ((rowLists df columns sep r).map (fun L => L.map some)) =
      (List.range n).map (fun i =>
        ((rowLists df columns sep r).map (fun L => L.map some)).map
          (fun L => L.getD i none)) :=
    zipStar_const_length (by simpa using hlne) halln
  have hkeep : ∀ t ∈ (List.range n).map (fun i =>
      ((rowLists df columns sep r).map (fun L => L.map some)).map
        (fun L => L.getD i none)), keepTuple t = true := by
    intro t ht
    rcases List.mem_map.mp ht with ⟨i, hi, hti⟩
    have hin : i < n := List.mem_range.mp hi
    cases hls : rowLists df columns sep r with
    | nil => exact absurd hls hlne
    | cons L0 ls' =>
      have hL0 : L0.length = n := hlists L0 (by rw [hls]; exact List.mem_cons_self L0 ls')
      have hiL0 : i < L0.length := by omega
      have hhead : (L0.map some).getD i none = some L0[i] := by
        rw [List.getD_eq_getElem?_getD, List.getElem?_map,
          List.getElem?_eq_getElem hiL0]
        rfl
      have htok0 : L0[i] ∈ L0 := List.getElem_mem hiL0
      have hL0split : L0 ∈ rowLists df columns sep r := by
        rw [hls]
        exact List.mem_cons_self L0 ls'
      rcases List.mem_map.mp hL0split with ⟨c, _, hcl⟩
      have htok0' : L0[i] ∈
          _split_to_list (cellStr (getCell r (colIdx df c))) sep := by
        rw [hcl]
        exact htok0
      have htprop := mem_split_to_list htok0'
      have hstrip : (stripStr L0[i]).isEmpty = false := by
        rw [htprop.2.1]
        exact List.isEmpty_eq_false.mpr htprop.1
      rw [← hti, hls]
      simp only [List.map_cons, keepTuple, List.any_cons]
      rw [hhead]
      refine Bool.or_eq_true_iff.mpr (Or.inl ?_)
      show (!(stripStr L0[i]).isEmpty) = true
      rw [hstrip]
      rfl
  rw [rowTuples, haligned, hzip, List.filter_eq_self.mpr hkeep]
  simp

theorem flatMap_length_const {R S : Type} {rows : List R} {f : R → List S} {n : Nat}
    (h : ∀ r ∈ rows, (f r).length = n) :
    (rows.flatMap f).length = rows.length * n := by
  induction rows with
  | nil => simp
  | cons r rest ih =>
    simp only [List.flatMap_cons, List.length_append, List.length_cons]
    rw [h r (List.mem_cons_self r rest),
      ih (fun x hx => h x (List.mem_cons_of_mem r hx))]
    ring

/-- C1 (confirmed). If every selected column tokenizes to exactly `n ≥ 1`
tokens in every row (same `n` across columns and rows), the padding-mode
explosion succeeds and produces exactly `n` output rows per input row; the
output row list is the concatenation, in origin-row order, of each origin
row's `n` tuple-rows in tuple-position order (origin order outer, tuple
order inner), and every unselected column's value in each emitted duplicate
equals the origin row's value (hence is identical across the `n`
duplicates). -/
theorem C1_explosion_row_count (df : Table) (columns : List Str) (sep : Char)
    (keep : Bool) (n : Nat) (hne : columns ≠ []) (hn : 1 ≤ n)
    (hcols : ∀ c ∈ columns, c ∈ df.cols)
    (htok : ∀ r ∈ df.rows, ∀ c ∈ columns,
      (_split_to_list (cellStr (getCell r (colIdx df c))) sep).length = n) :
    ∃ T, explode_aligned_columns df columns sep keep false = .ok T ∧
      T.cols = df.cols ∧
      T.rows = df.rows.flatMap (fun r =>
        (rowTuples df columns sep r).map
          (fun t => unpackRow df.cols columns r (some t))) ∧
      (∀ r ∈ df.rows, (rowTuples df columns sep r).length = n) ∧
      T.rows.length = df.rows.length * n ∧
      (∀ r ∈ df.rows, ∀ t : List (Option Str), ∀ j, j < df.cols.length →
        df.cols.getD j [] ∉ columns →
        (unpackRow df.cols columns r (some t)).getD j .missing =
          r.getD j .missing) := by
  have hlen : ∀ r ∈ df.rows, (rowTuples df columns sep r).length = n :=
    fun r hr => rowTuples_const_length df columns sep r n hne hn (htok r hr)
  have hemit : ∀ r ∈ df.rows, emitRow df columns sep keep r =
      (rowTuples df columns sep r).map
        (fun t => unpackRow df.cols columns r (some t)) := by
    intro r hr
    rw [emitRow]
    have hts : ¬(rowTuples df columns sep r).isEmpty = true := by
      rw [List.isEmpty_iff_length_eq_zero, hlen r hr]
      omega
    simp [hts]
  have hchk : frameCheckFails df columns sep keep = false :=
    frameCheckFails_of_nonempty df columns sep keep (fun r hr hcon => by
      have hl := hlen r hr
      rw [hcon] at hl
      simp at hl
      omega)
  refine ⟨_, explode_padding_eq df columns sep keep hcols hchk, rfl,
    flatMap_congr_mem hemit, hlen, ?_, ?_⟩
  · rw [flatMap_congr_mem hemit]
    refine flatMap_length_const ?_
    intro r hr
    rw [List.length_map]
    exact hlen r hr
  · intro r _ t j hj hnot
    exact unpackRow_getD_of_not_mem df.cols columns r (some t) j hj hnot hcols

/-- Witness for C1 at a concrete input (two selected two-token columns, one
passthrough column, `n = 2`). -/
theorem C1_witness :
    ([chrs "A", chrs "B"] : List Str) ≠ [] ∧ 1 ≤ 2 ∧
    (∀ c ∈ [chrs "A", chrs "B"], c ∈ wtabC1.cols) ∧
    (∀ r ∈ wtabC1.rows, ∀ c ∈ [chrs "A", chrs "B"],
      (_split_to_list (cellStr (getCell r (colIdx wtabC1 c))) ',').length = 2) ∧
    (∃ T, explode_aligned_columns wtabC1 [chrs "A", chrs "B"] ',' false false = .ok T ∧
      T.cols = wtabC1.cols ∧
      T.rows = wtabC1.rows.flatMap (fun r =>
        (rowTuples wtabC1 [chrs "A", chrs "B"] ',' r).map
          (fun t => unpackRow wtabC1.cols [chrs "A", chrs "B"] r (some t))) ∧
      (∀ r ∈ wtabC1.rows,
        (rowTuples wtabC1 [chrs "A", chrs "B"] ',' r).length = 2) ∧
      T.rows.length = wtabC1.rows.length * 2 ∧
      (∀ r ∈ wtabC1.rows, ∀ t : List (Option Str), ∀ j, j < wtabC1.cols.length →
        wtabC1.cols.getD j [] ∉ [chrs "A", chrs "B"] →
        (unpackRow wtabC1.cols [chrs "A", chrs "B"] r (some t)).getD j .missing =
          r.getD j .missing)) :=
  ⟨by decide, by decide, by decide, by decide,
   C1_explosion_row_count wtabC1 [chrs "A", chrs "B"] ',' false 2
     (by decide) (by decide) (by decide) (by decide)⟩

/-! ### Code-point lexicographic order facts for `sorted(keep)` -/

theorem char_eq_of_toNat_eq {a b : Char} (h : a.toNat = b.toNat) : a = b := by
  have hval : a.val = b.val := UInt32.toNat.inj h
  exact Char.eq_of_val_eq hval

theorem strLt_nil_right : ∀ s : Str, strLt s [] = false
  | [] => rfl
  | _ :: _ => rfl

theorem strLt_irrefl : ∀ s : Str, strLt s s = false
  | [] => rfl
  | a :: as => by
    rw [strLt, if_neg (Nat.lt_irrefl _), if_neg (Nat.lt_irrefl _)]
    exact strLt_irrefl as

theorem strLt_trans : ∀ (s t u : Str),
    strLt s t = true → strLt t u = true → strLt s u = true
  | s, [], u, h1, _ => by
    rw [strLt_nil_right] at h1
    exact absurd h1 (by simp)
  | [], _ :: _, [], _, h2 => by
    rw [strLt_nil_right] at h2
    exact absurd h2 (by simp)
  | [], _ :: _, _ :: _, _, _ => rfl
  | _ :: _, _ :: _, [], _, h2 => by
    rw [strLt_nil_right] at h2
    exact absurd h2 (by simp)
  | a :: as, b :: bs, c :: cs, h1, h2 => by
    rw [strLt] at h1 h2 ⊢
    by_cases hab : a.toNat < b.toNat
    · by_cases hbc : b.toNat < c.toNat
      · rw [if_pos (Nat.lt_trans hab hbc)]
      · rw [if_neg hbc] at h2
        by_cases hcb : c.toNat < b.toNat
        · rw [if_pos hcb] at h2
          exact absurd h2 (by simp)
        · have hbceq : b.toNat = c.toNat := by omega
          rw [if_pos (hbceq ▸ hab)]
    · rw [if_neg hab] at h1
      by_cases hba : b.toNat < a.toNat
      · rw [if_pos hba] at h1
        exact absurd h1 (by simp)
      · rw [if_neg hba] at h1
        have habeq : a.toNat = b.toNat := by omega
        by_cases hbc : b.toNat < c.toNat
        · rw [if_pos (by omega : a.toNat < c.toNat)]
        · rw [if_neg hbc] at h2
          by_cases hcb : c.toNat < b.toNat
          · rw [if_pos hcb] at h2
            exact absurd h2 (by simp)
          · rw [if_neg hcb] at h2
            rw [if_neg (by omega : ¬a.toNat < c.toNat),
              if_neg (by omega : ¬c.toNat < a.toNat)]
            exact strLt_trans as bs cs h1 h2

theorem strLt_trichotomy : ∀ s t : Str,
    strLt s t = true ∨ s = t ∨ strLt t s = true
  | [], [] => Or.inr (Or.inl rfl)
  | [], _ :: _ => Or.inl rfl
  | _ :: _, [] => Or.inr (Or.inr rfl)
  | a :: as, b :: bs => by
    rcases Nat.lt_trichotomy a.toNat b.toNat with h | h | h
    · left
      rw [strLt, if_pos h]
    · have hab : a = b := char_eq_of_toNat_eq h
      rcases strLt_trichotomy as bs with h' | h' | h'
      · left
        rw [strLt, if_neg (by omega), if_neg (by omega)]
        exact h'
      · exact Or.inr (Or.inl (by rw [hab, h']))
      · right
        right
        rw [strLt, if_neg (by omega), if_neg (by omega)]
        exact h'
    · right
      right
      rw [strLt, if_pos h]

theorem strLt_asymm {s t : Str} (h : strLt s t = true) : strLt t s = false := by
  by_contra hc
  have ht : strLt t s = true := by
    cases hts : strLt t s
    · exact absurd hts hc
    · rfl
  have := strLt_trans s t s h ht
  rw [strLt_irrefl] at this
  exact absurd this (by simp)

theorem mem_insertSorted {x t : Str} :
    ∀ {l : List Str}, t ∈ insertSorted x l ↔ t = x ∨ t ∈ l := by
  intro l
  induction l with
  | nil => simp [insertSorted]
  | cons y ys ih =>
    rw [insertSorted]
    by_cases hxy : strLt x y = true
    · rw [if_pos hxy]
      simp [List.mem_cons]
    · rw [if_neg hxy]
      simp only [List.mem_cons, ih]
      tauto

theorem mem_sortTokens {t : Str} : ∀ {ts : List Str},
    t ∈ sortTokens ts ↔ t ∈ ts := by
  intro ts
  induction ts with
  | nil => simp [sortTokens]
  | cons x xs ih =>
    rw [sortTokens, List.foldr_cons]
    rw [show xs.foldr insertSorted [] = sortTokens xs from rfl]
    rw [mem_insertSorted, ih]
    simp [List.mem_cons]

/-- A weak ordering invariant: `a` is left of `b` only if `b` is not
strictly smaller. -/
theorem insertSorted_pairwise {x : Str} {l : List Str}
    (h : l.Pairwise (fun a b => strLt b a = false)) :
    (insertSorted x l).Pairwise (fun a b => strLt b a = false) := by
  induction l with
  | nil => simp [insertSorted]
  | cons y ys ih =>
    rw [insertSorted]
    rcases List.pairwise_cons.mp h with ⟨hy, hys⟩
    by_cases hxy : strLt x y = true
    · rw [if_pos hxy]
      refine List.pairwise_cons.mpr ⟨?_, h⟩
      intro z hz
      rcases List.mem_cons.mp hz with hzy | hzys
      · rw [hzy]
        exact strLt_asymm hxy
      · cases hzx : strLt z x
        · rfl
        · have hzy' : strLt z y = true := strLt_trans z x y hzx hxy
          rw [hy z hzys] at hzy'
          exact absurd hzy' (by simp)
    · rw [if_neg hxy]
      refine List.pairwise_cons.mpr ⟨?_, ih hys⟩
      intro z hz
      rcases mem_insertSorted.mp hz with hzx | hzys
      · rw [hzx]
        cases hxyb : strLt x y
        · rfl
        · exact absurd hxyb hxy
      · exact hy z hzys

theorem sortTokens_pairwise_le : ∀ (ts : List Str),
    (sortTokens ts).Pairwise (fun a b => strLt b a = false)
  | [] => by simp [sortTokens]
  | x :: xs => by
    rw [sortTokens, List.foldr_cons]
    rw [show xs.foldr insertSorted [] = sortTokens xs from rfl]
    exact insertSorted_pairwise (sortTokens_pairwise_le xs)

theorem insertSorted_nodup {x : Str} : ∀ {l : List Str}, l.Nodup → x ∉ l →
    (insertSorted x l).Nodup := by
  intro l
  induction l with
  | nil =>
    intro _ _
    simp [insertSorted]
  | cons y ys ih =>
    intro hnd hx
    rcases List.nodup_cons.mp hnd with ⟨hy, hys⟩
    rw [insertSorted]
    by_cases hxy : strLt x y = true
    · rw [if_pos hxy]
      exact List.nodup_cons.mpr ⟨hx, hnd⟩
    · rw [if_neg hxy]
      refine List.nodup_cons.mpr
        ⟨?_, ih hys (fun h => hx (List.mem_cons_of_mem y h))⟩
      intro hmem
      rcases mem_insertSorted.mp hmem with h | h
      · refine hx ?_
        rw [← h]
        exact List.mem_cons_self y ys
      · exact hy h

theorem sortTokens_nodup : ∀ {ts : List Str}, ts.Nodup → (sortTokens ts).Nodup := by
  intro ts
  induction ts with
  | nil =>
    intro _
    simp [sortTokens]
  | cons x xs ih =>
    intro hnd
    rcases List.nodup_cons.mp hnd with ⟨hx, hxs⟩
    rw [sortTokens, List.foldr_cons,
      show xs.foldr insertSorted [] = sortTokens xs from rfl]
    exact insertSorted_nodup (ih hxs) (fun hmem => hx (mem_sortTokens.mp hmem))

/-- `sorted(...)` of a duplicate-free token list is strictly increasing in
code-point order. -/
theorem sortTokens_pairwise {ts : List Str} (hnd : ts.Nodup) :
    (sortTokens ts).Pairwise (fun a b => strLt a b = true) := by
  have hle := sortTokens_pairwise_le ts
  have hnd' := sortTokens_nodup hnd
  refine (hle.and hnd').imp ?_
  intro a b hab
  rcases strLt_trichotomy a b with h | h | h
  · exact h
  · exact absurd h hab.2
  · rw [h] at hab
    exact absurd hab.1 (by simp)

/-! ### Characterizing the one-hot materializer -/

theorem range_map_getD {β : Type} (l : List β) (d : β) :
    (List.range l.length).map (fun i => l.getD i d) = l := by
  refine List.ext_getElem (by simp) ?_
  intro i h1 h2
  simp only [List.getElem_map, List.getElem_range]
  rw [List.getD_eq_getElem?_getD, List.getElem?_eq_getElem h2]
  rfl

/-- Folding fresh, pairwise-distinct column assignments over a table appends
exactly the assigned columns, in order, leaving the original columns and all
original row values in place. -/
theorem foldl_assign_fresh :
    ∀ (nvs : List (Str × List Val)) (T : Table),
      (nvs.map Prod.fst).Nodup →
      (∀ p ∈ nvs, p.1 ∉ T.cols) →
      (∀ p ∈ nvs, p.2.length = T.rows.length) →
      nvs.foldl (fun t p => assignCol t p.1 p.2) T =
        ⟨T.cols ++ nvs.map Prod.fst,
         (List.range T.rows.length).map (fun i =>
           T.rows.getD i [] ++ nvs.map (fun p => p.2.getD i Val.missing))⟩ := by
  intro nvs
  induction nvs with
  | nil =>
    intro T _ _ _
    simp only [List.foldl_nil, List.map_nil, List.append_nil]
    rw [range_map_getD]
  | cons nv rest ih =>
    intro T hnd hfresh hlen
    simp only [List.foldl_cons]
    have hnotin : nv.1 ∉ T.cols := hfresh nv (List.mem_cons_self nv rest)
    have hcontains : T.cols.contains nv.1 = false := by simpa using hnotin
    have hassign : assignCol T nv.1 nv.2 =
        ⟨T.cols ++ [nv.1], (T.rows.zip nv.2).map (fun rv => rv.1 ++ [rv.2])⟩ := by
      rw [assignCol, if_neg (by rw [hcontains]; simp)]
    rw [hassign]
    have hlen1 : nv.2.length = T.rows.length := hlen nv (List.mem_cons_self nv rest)
    have hzl : ((T.rows.zip nv.2).map (fun rv => rv.1 ++ [rv.2])).length =
        T.rows.length := by
      simp [List.length_zip, hlen1]
    have hrest := ih ⟨T.cols ++ [nv.1], (T.rows.zip nv.2).map (fun rv => rv.1 ++ [rv.2])⟩
      (by
        have := hnd
        simp only [List.map_cons] at this
        exact (List.nodup_cons.mp this).2)
      (by
        intro p hp
        simp only [List.mem_append, List.mem_singleton]
        rintro (hmem | hpe)
        · exact hfresh p (List.mem_cons_of_mem nv hp) hmem
        · have hne : p.1 ≠ nv.1 := by
            have hnd' := hnd
            simp only [List.map_cons, List.nodup_cons] at hnd'
            intro hcontra
            exact hnd'.1 (hcontra ▸ List.mem_map_of_mem Prod.fst hp)
          exact hne hpe)
      (by
        intro p hp
        rw [hzl]
        exact hlen p (List.mem_cons_of_mem nv hp))
    rw [hrest]
    simp only [hzl]
    refine congrArg₂ Table.mk ?_ ?_
    · simp
    · refine List.map_congr_left ?_
      intro i hi
      have hix : i < T.rows.length := List.mem_range.mp hi
      have hgetD : ((T.rows.zip nv.2).map (fun rv => rv.1 ++ [rv.2])).getD i [] =
          T.rows.getD i [] ++ [nv.2.getD i Val.missing] := by
        have hiz : i < (T.rows.zip nv.2).length := by
          simp [List.length_zip, hlen1]
          omega
        rw [List.getD_eq_getElem?_getD, List.getElem?_map,
          List.getElem?_eq_getElem hiz]
        simp only [List.getElem_zip]
        rw [List.getD_eq_getElem?_getD, List.getElem?_eq_getElem hix,
          List.getD_eq_getElem?_getD,
          List.getElem?_eq_getElem (show i < nv.2.length by omega)]
        rfl
      rw [hgetD, List.map_cons, List.append_assoc]
      rfl

/-- When the generated indicator names are pairwise distinct and collide with
no existing column, one pass of the materializer appends exactly the sorted
retained tokens' indicator columns, with per-row membership values, leaving
the original columns and rows in place. -/
theorem oneHotCol_fresh (df : Table) (col : Str) (sep : Char) (m : Nat)
    (prefMap : List (Str × Str))
    (hfresh : ∀ t ∈ indicatorTokens (colTokens df col sep) m,
      indicatorName prefMap col t ∉ df.cols)
    (hinj : ((indicatorTokens (colTokens df col sep) m).map
      (indicatorName prefMap col)).Nodup) :
    oneHotCol df col sep m prefMap =
      ⟨df.cols ++ (indicatorTokens (colTokens df col sep) m).map
          (indicatorName prefMap col),
       (List.range df.rows.length).map (fun i =>
         df.rows.getD i [] ++ (indicatorTokens (colTokens df col sep) m).map
           (fun t => Val.num
             (if t ∈ (colTokens df col sep).getD i [] then 1 else 0)))⟩ := by
  have hfold : oneHotCol df col sep m prefMap =
      ((indicatorTokens (colTokens df col sep) m).map
        (fun t => (indicatorName prefMap col t,
          (colTokens df col sep).map
            (fun L => Val.num (if t ∈ L then 1 else 0))))).foldl
        (fun t p => assignCol t p.1 p.2) df := by
    rw [oneHotCol]
    exact (List.foldl_map
      (fun t => (indicatorName prefMap col t,
        (colTokens df col sep).map (fun L => Val.num (if t ∈ L then 1 else 0))))
      (fun t p => assignCol t p.1 p.2)
      (indicatorTokens (colTokens df col sep) m) df).symm
  rw [hfold]
  have hlenTok : (colTokens df col sep).length = df.rows.length := by
    rw [colTokens, List.length_map]
  rw [foldl_assign_fresh _ df
    (by
      rw [List.map_map]
      exact hinj)
    (by
      intro p hp
      rcases List.mem_map.mp hp with ⟨t, ht, hpt⟩
      rw [← hpt]
      exact hfresh t ht)
    (by
      intro p hp
      rcases List.mem_map.mp hp with ⟨t, _, hpt⟩
      rw [← hpt]
      simpa using hlenTok)]
  refine congrArg₂ Table.mk ?_ ?_
  · rw [List.map_map]
    rfl
  · refine List.map_congr_left ?_
    intro i hi
    have hix : i < df.rows.length := List.mem_range.mp hi
    refine congrArg₂ (· ++ ·) rfl ?_
    rw [List.map_map]
    refine List.map_congr_left ?_
    intro t _
    have hit : i < (colTokens df col sep).length := by omega
    show ((colTokens df col sep).map
      (fun L => Val.num (if t ∈ L then 1 else 0))).getD i Val.missing =
      Val.num (if t ∈ (colTokens df col sep).getD i [] then 1 else 0)
    rw [List.getD_eq_getElem?_getD, List.getElem?_map,
      List.getElem?_eq_getElem hit, List.getD_eq_getElem?_getD,
      List.getElem?_eq_getElem hit]
    rfl

/-! ### Claims C7 and C8: the indicator materializer -/

theorem mem_indicatorTokens {tokens : List (List Str)} {m : Nat} {t : Str}
    (hm : 1 ≤ m) :
    t ∈ indicatorTokens tokens m ↔ m ≤ tokens.flatten.count t := by
  rw [indicatorTokens, mem_sortTokens, List.mem_filter, List.mem_dedup]
  constructor
  · rintro ⟨_, h⟩
    simpa using h
  · intro h
    refine ⟨?_, by simpa using h⟩
    have hpos : 0 < tokens.flatten.count t := by omega
    exact List.count_pos_iff.mp hpos

/-- C7 (confirmed, read with `m ≥ 1` — "occurring exactly `m-1` times"
presupposes it). A token with exactly `m-1` total occurrences in the column
(each occurrence inside a cell counted separately) is never retained; one
with exactly `m` occurrences always is.  The retained tokens are strictly
ascending in code-point order, and — when the generated names (prefix
defaulting to the column name, overridable via the prefix map, `__`
separator, spaces replaced by underscores) are fresh and pairwise distinct —
the result is the input table with exactly one appended column per retained
token, in that order, whose value in each row is 1 exactly when the row's
token sequence contains the token, else 0. -/
theorem C7_indicator_threshold (df : Table) (col : Str) (sep : Char) (m : Nat)
    (prefMap : List (Str × Str)) (hm : 1 ≤ m)
    (hfresh : ∀ t ∈ indicatorTokens (colTokens df col sep) m,
      indicatorName prefMap col t ∉ df.cols)
    (hinj : ((indicatorTokens (colTokens df col sep) m).map
      (indicatorName prefMap col)).Nodup) :
    (∀ t : Str, (colTokens df col sep).flatten.count t = m - 1 →
      t ∉ indicatorTokens (colTokens df col sep) m) ∧
    (∀ t : Str, (colTokens df col sep).flatten.count t = m →
      t ∈ indicatorTokens (colTokens df col sep) m) ∧
    (indicatorTokens (colTokens df col sep) m).Pairwise
      (fun a b => strLt a b = true) ∧
    one_hot_multivalue_columns df [col] sep m prefMap =
      ⟨df.cols ++ (indicatorTokens (colTokens df col sep) m).map
          (indicatorName prefMap col),
       (List.range df.rows.length).map (fun i =>
         df.rows.getD i [] ++ (indicatorTokens (colTokens df col sep) m).map
           (fun t => Val.num
             (if t ∈ (colTokens df col sep).getD i [] then 1 else 0)))⟩ := by
  refine ⟨?_, ?_, ?_, ?_⟩
  · intro t hcount hmem
    have hge := (mem_indicatorTokens hm).mp hmem
    omega
  · intro t hcount
    exact (mem_indicatorTokens hm).mpr (by omega)
  · exact sortTokens_pairwise ((List.nodup_dedup _).filter _)
  · have hone : one_hot_multivalue_columns df [col] sep m prefMap =
        oneHotCol df col sep m prefMap := rfl
    rw [hone]
    exact oneHotCol_fresh df col sep m prefMap hfresh hinj

/-- Witness for C7 at a concrete input: token `a` occurs twice, `b` once,
`min_count = 2`. -/
theorem C7_witness :
    1 ≤ 2 ∧
    (∀ t ∈ indicatorTokens (colTokens wtabC7 (chrs "X") ',') 2,
      indicatorName [] (chrs "X") t ∉ wtabC7.cols) ∧
    ((indicatorTokens (colTokens wtabC7 (chrs "X") ',') 2).map
      (indicatorName [] (chrs "X"))).Nodup ∧
    ((∀ t : Str, (colTokens wtabC7 (chrs "X") ',').flatten.count t = 1 →
      t ∉ indicatorTokens (colTokens wtabC7 (chrs "X") ',') 2) ∧
    (∀ t : Str, (colTokens wtabC7 (chrs "X") ',').flatten.count t = 2 →
      t ∈ indicatorTokens (colTokens wtabC7 (chrs "X") ',') 2) ∧
    (indicatorTokens (colTokens wtabC7 (chrs "X") ',') 2).Pairwise
      (fun a b => strLt a b = true) ∧
    one_hot_multivalue_columns wtabC7 [chrs "X"] ',' 2 [] =
      ⟨wtabC7.cols ++ (indicatorTokens (colTokens wtabC7 (chrs "X") ',') 2).map
          (indicatorName [] (chrs "X")),
       (List.range wtabC7.rows.length).map (fun i =>
         wtabC7.rows.getD i [] ++
           (indicatorTokens (colTokens wtabC7 (chrs "X") ',') 2).map
             (fun t => Val.num
               (if t ∈ (colTokens wtabC7 (chrs "X") ',').getD i [] then 1
                else 0)))⟩) :=
  ⟨by decide, by decide, by decide,
   C7_indicator_threshold wtabC7 (chrs "X") ',' 2 [] (by decide) (by decide)
     (by decide)⟩

/-- C8 (corrected). When every generated indicator name is fresh (no
collision with an existing column or another generated name), the
materializer returns the input table augmented with the new indicator
columns: the original column list is a prefix of the result's, the row count
is unchanged, and each original row is a prefix of the corresponding result
row (all original values, in their original order). All operations are
modeled as pure functions: the input table value itself is never mutated.
The claim's unconditional form is refuted by `C8_counterexample`: a
generated name that equals an existing column name overwrites that column in
place. -/
theorem C8_one_hot_augments (df : Table) (col : Str) (sep : Char) (m : Nat)
    (prefMap : List (Str × Str))
    (hfresh : ∀ t ∈ indicatorTokens (colTokens df col sep) m,
      indicatorName prefMap col t ∉ df.cols)
    (hinj : ((indicatorTokens (colTokens df col sep) m).map
      (indicatorName prefMap col)).Nodup) :
    (one_hot_multivalue_columns df [col] sep m prefMap).cols =
      df.cols ++ (indicatorTokens (colTokens df col sep) m).map
        (indicatorName prefMap col) ∧
    (one_hot_multivalue_columns df [col] sep m prefMap).cols.take
      df.cols.length = df.cols ∧
    (one_hot_multivalue_columns df [col] sep m prefMap).rows.length =
      df.rows.length ∧
    (∀ i, i < df.rows.length →
      ((one_hot_multivalue_columns df [col] sep m prefMap).rows.getD i []).take
        (df.rows.getD i []).length = df.rows.getD i []) := by
  have hone : one_hot_multivalue_columns df [col] sep m prefMap =
      oneHotCol df col sep m prefMap := rfl
  rw [hone, oneHotCol_fresh df col sep m prefMap hfresh hinj]
  refine ⟨rfl, List.take_left _ _, by simp, ?_⟩
  intro i hi
  have hi' : i < (List.range df.rows.length).length := by simpa using hi
  have hrow : ((List.range df.rows.length).map (fun j =>
      df.rows.getD j [] ++ (indicatorTokens (colTokens df col sep) m).map
        (fun t => Val.num
          (if t ∈ (colTokens df col sep).getD j [] then 1 else 0)))).getD i [] =
      df.rows.getD i [] ++ (indicatorTokens (colTokens df col sep) m).map
        (fun t => Val.num
          (if t ∈ (colTokens df col sep).getD i [] then 1 else 0)) := by
    rw [List.getD_eq_getElem?_getD ((List.range df.rows.length).map _) i,
      List.getElem?_map, List.getElem?_eq_getElem hi']
    simp
  show (((List.range df.rows.length).map (fun j =>
      df.rows.getD j [] ++ (indicatorTokens (colTokens df col sep) m).map
        (fun t => Val.num
          (if t ∈ (colTokens df col sep).getD j [] then 1 else 0)))).getD i []).take
      (df.rows.getD i []).length = df.rows.getD i []
  rw [hrow]
  exact List.take_left _ _

/-- C8 counterexample: a generated indicator name that collides with an
existing column (`X__a`) overwrites it in place — the result has no new
column and an original row value is changed, refuting "returns the input
table augmented with new indicator columns while every original column and
every original row is unchanged". -/
theorem C8_counterexample :
    (one_hot_multivalue_columns wtabC8 [chrs "X"] ',' 1 []).cols = wtabC8.cols ∧
    (one_hot_multivalue_columns wtabC8 [chrs "X"] ',' 1 []).rows ≠ wtabC8.rows := by
  decide

/-- Witness for C8 at a concrete collision-free input. -/
theorem C8_witness :
    (∀ t ∈ indicatorTokens (colTokens wtabC7 (chrs "X") ',') 2,
      indicatorName [] (chrs "X") t ∉ wtabC7.cols) ∧
    ((indicatorTokens (colTokens wtabC7 (chrs "X") ',') 2).map
      (indicatorName [] (chrs "X"))).Nodup ∧
    ((one_hot_multivalue_columns wtabC7 [chrs "X"] ',' 2 []).cols =
      wtabC7.cols ++ (indicatorTokens (colTokens wtabC7 (chrs "X") ',') 2).map
        (indicatorName [] (chrs "X")) ∧
    (one_hot_multivalue_columns wtabC7 [chrs "X"] ',' 2 []).cols.take
      wtabC7.cols.length = wtabC7.cols ∧
    (one_hot_multivalue_columns wtabC7 [chrs "X"] ',' 2 []).rows.length =
      wtabC7.rows.length ∧
    (∀ i, i < wtabC7.rows.length →
      ((one_hot_multivalue_columns wtabC7 [chrs "X"] ',' 2 []).rows.getD i []).take
        (wtabC7.rows.getD i []).length = wtabC7.rows.getD i [])) :=
  ⟨by decide, by decide,
   C8_one_hot_augments wtabC7 (chrs "X") ',' 2 [] (by decide) (by decide)⟩

end DataExplosion
